import Mathlib

/-!
Verification development for the gillcup_graphics core: a shallow embedding
of `transformation.py` (affine matrix / point transformations) and of
`objects.py` (scene graph nodes, the Layer pointer-event router, and death
propagation), with theorems settling the specification claims.

Numeric values are embedded as exact rationals (`ℚ`).  Python's `cos`/`sin`
of the rotation angle are transcendental, so a rotation is parametrised by
the pair `(c, s)` of its cosine and sine; well-formedness hypotheses
`c^2 + s^2 = 1` (and a unit axis) state the caller contract from the spec.
A Python statement that raises (`ZeroDivisionError` in
`PointTransformation`, `ValueError` in `MatrixTransformation.inverse`) is
embedded as `none` / a `raised` flag.
-/

namespace GG

/-- A 16-element row-major 4x4 matrix, the state of `MatrixTransformation`
(`self.matrix` in `transformation.py`). -/
structure M16 where
  a0 : ℚ
  a1 : ℚ
  a2 : ℚ
  a3 : ℚ
  a4 : ℚ
  a5 : ℚ
  a6 : ℚ
  a7 : ℚ
  a8 : ℚ
  a9 : ℚ
  a10 : ℚ
  a11 : ℚ
  a12 : ℚ
  a13 : ℚ
  a14 : ℚ
  a15 : ℚ
deriving DecidableEq

/-- The identity matrix (`MatrixTransformation.identity`). -/
def idM : M16 := ⟨1, 0, 0, 0, 0, 1, 0, 0, 0, 0, 1, 0, 0, 0, 0, 1⟩

/-- `MatrixTransformation.premultiply(values)`: the new matrix is
`values * current` (row-major), transcribed entry by entry from the source.
`v` is `values` (`m2_*`), `m` is `self.matrix` (`m1_*`). -/
def premulM (v m : M16) : M16 :=
  ⟨v.a0 * m.a0 + v.a1 * m.a4 + v.a2 * m.a8 + v.a3 * m.a12,
   v.a0 * m.a1 + v.a1 * m.a5 + v.a2 * m.a9 + v.a3 * m.a13,
   v.a0 * m.a2 + v.a1 * m.a6 + v.a2 * m.a10 + v.a3 * m.a14,
   v.a0 * m.a3 + v.a1 * m.a7 + v.a2 * m.a11 + v.a3 * m.a15,
   v.a4 * m.a0 + v.a5 * m.a4 + v.a6 * m.a8 + v.a7 * m.a12,
   v.a4 * m.a1 + v.a5 * m.a5 + v.a6 * m.a9 + v.a7 * m.a13,
   v.a4 * m.a2 + v.a5 * m.a6 + v.a6 * m.a10 + v.a7 * m.a14,
   v.a4 * m.a3 + v.a5 * m.a7 + v.a6 * m.a11 + v.a7 * m.a15,
   v.a8 * m.a0 + v.a9 * m.a4 + v.a10 * m.a8 + v.a11 * m.a12,
   v.a8 * m.a1 + v.a9 * m.a5 + v.a10 * m.a9 + v.a11 * m.a13,
   v.a8 * m.a2 + v.a9 * m.a6 + v.a10 * m.a10 + v.a11 * m.a14,
   v.a8 * m.a3 + v.a9 * m.a7 + v.a10 * m.a11 + v.a11 * m.a15,
   v.a12 * m.a0 + v.a13 * m.a4 + v.a14 * m.a8 + v.a15 * m.a12,
   v.a12 * m.a1 + v.a13 * m.a5 + v.a14 * m.a9 + v.a15 * m.a13,
   v.a12 * m.a2 + v.a13 * m.a6 + v.a14 * m.a10 + v.a15 * m.a14,
   v.a12 * m.a3 + v.a13 * m.a7 + v.a14 * m.a11 + v.a15 * m.a15⟩

/-- The matrix premultiplied by `BaseTransformation.translate(x, y, z)`. -/
def translateM (x y z : ℚ) : M16 :=
  ⟨1, 0, 0, 0, 0, 1, 0, 0, 0, 0, 1, 0, x, y, z, 1⟩

/-- The matrix premultiplied by `BaseTransformation.rotate(angle, x, y, z)`,
with `c`/`s` the cosine/sine of `angle` in radians computed by the source
(`c = cos(angle * deg_to_rad)`, `s = sin(...)`, `d = 1 - c`). -/
def rotM (c s x y z : ℚ) : M16 :=
  ⟨x * (x * (1 - c)) + c, y * (x * (1 - c)) + z * s, x * (z * (1 - c)) - y * s, 0,
   x * (y * (1 - c)) - z * s, y * (y * (1 - c)) + c, y * (z * (1 - c)) + x * s, 0,
   x * (z * (1 - c)) + y * s, y * (z * (1 - c)) - x * s, z * (z * (1 - c)) + c, 0,
   0, 0, 0, 1⟩

/-- The matrix premultiplied by `BaseTransformation.scale(x, y, z)`. -/
def scaleM (x y z : ℚ) : M16 :=
  ⟨x, 0, 0, 0, 0, y, 0, 0, 0, 0, z, 0, 0, 0, 0, 1⟩

/-- One elementary transformation call on a transformation object.  A
`rot c s x y z` carries the cosine and sine of the angle; the source's
`if not angle: return` short-circuit corresponds to `(c, s) = (1, 0)`,
for which the rotation matrix is exactly the identity. -/
inductive TOp where
  | tr (x y z : ℚ)
  | rot (c s x y z : ℚ)
  | sc (x y z : ℚ)
deriving DecidableEq

/-- The elementary matrix an operation premultiplies. -/
def opMat : TOp → M16
  | .tr x y z => translateM x y z
  | .rot c s x y z => rotM c s x y z
  | .sc x y z => scaleM x y z

/-- Run a sequence of translate/rotate/scale calls on a fresh
`MatrixTransformation` (which starts at the identity). -/
def applyOps (ops : List TOp) : M16 :=
  ops.foldl (fun m op => premulM (opMat op) m) idM

/-- Caller contract for rotations (spec §4.1): the axis is a unit vector
and `(c, s)` is a cosine/sine pair.  Translations and scalings have no
contract. -/
def WFOp : TOp → Prop
  | .tr _ _ _ => True
  | .rot c s x y z => c ^ 2 + s ^ 2 = 1 ∧ x ^ 2 + y ^ 2 + z ^ 2 = 1
  | .sc _ _ _ => True

/-- The determinant contributed by one well-formed operation: 1 for a
translation or (unit-axis) rotation, the product of the factors for a
scaling. -/
def opDet : TOp → ℚ
  | .tr _ _ _ => 1
  | .rot _ _ _ _ _ => 1
  | .sc x y z => x * y * z

/-- An operation that scales some axis by exactly zero. -/
def zeroScaleOp : TOp → Prop
  | .sc x y z => x = 0 ∨ y = 0 ∨ z = 0
  | _ => False

/-- An operation that is not a zero scaling (scales, if any, have all
factors nonzero). -/
def nonzeroScaleOp : TOp → Prop
  | .sc x y z => x ≠ 0 ∧ y ≠ 0 ∧ z ≠ 0
  | _ => True

/-- The six signed triple products accumulated by
`MatrixTransformation.inverse` (its `temp` values, in source order). -/
def dtemps (m : M16) : List ℚ :=
  [m.a0 * m.a5 * m.a10,
   m.a1 * m.a6 * m.a8,
   m.a2 * m.a4 * m.a9,
   -m.a2 * m.a5 * m.a8,
   -m.a1 * m.a4 * m.a10,
   -m.a0 * m.a6 * m.a9]

/-- The positive accumulator `negpos[1]`: each `temp > 0` is added here. -/
def posS (m : M16) : ℚ :=
  ((dtemps m).map (fun t => if t > 0 then t else 0)).sum

/-- The nonpositive accumulator `negpos[0]`: each `temp <= 0` is added here. -/
def negS (m : M16) : ℚ :=
  ((dtemps m).map (fun t => if t > 0 then 0 else t)).sum

/-- The determinant of the upper-left 3x3 block (what `inverse` calls
`det_1 = negpos[0] + negpos[1]` before inverting it). -/
def det3 (m : M16) : ℚ :=
  m.a0 * m.a5 * m.a10 + m.a1 * m.a6 * m.a8 + m.a2 * m.a4 * m.a9
    - m.a2 * m.a5 * m.a8 - m.a1 * m.a4 * m.a10 - m.a0 * m.a6 * m.a9

/-- `MatrixTransformation.inverse`: the closed-form affine inverse.  `none`
embeds the source's `raise ValueError("Matrix can not be inverted")`,
triggered when `det_1 == 0` or when the determinant is numerically
negligible relative to the magnitude of its partial sums
(`abs(det_1 / (negpos[1] - negpos[0])) < 2 * 1e-17`). -/
def inverseM (m : M16) : Option M16 :=
  let det1 := negS m + posS m
  if det1 = 0 ∨ |det1 / (posS m - negS m)| < 2 * (1 / (10 : ℚ) ^ 17) then
    none
  else
    let dinv := 1 / det1
    let b0 := (m.a5 * m.a10 - m.a6 * m.a9) * dinv
    let b1 := -(m.a1 * m.a10 - m.a2 * m.a9) * dinv
    let b2 := (m.a1 * m.a6 - m.a2 * m.a5) * dinv
    let b4 := -(m.a4 * m.a10 - m.a6 * m.a8) * dinv
    let b5 := (m.a0 * m.a10 - m.a2 * m.a8) * dinv
    let b6 := -(m.a0 * m.a6 - m.a2 * m.a4) * dinv
    let b8 := (m.a4 * m.a9 - m.a5 * m.a8) * dinv
    let b9 := -(m.a0 * m.a9 - m.a1 * m.a8) * dinv
    let b10 := (m.a0 * m.a5 - m.a1 * m.a4) * dinv
    some
      ⟨b0, b1, b2, 0, b4, b5, b6, 0, b8, b9, b10, 0,
       -(m.a12 * b0 + m.a13 * b4 + m.a14 * b8),
       -(m.a12 * b1 + m.a13 * b5 + m.a14 * b9),
       -(m.a12 * b2 + m.a13 * b6 + m.a14 * b10), 1⟩

/-- A 3-component point (Python 3-tuple of numbers). -/
abbrev Pt := ℚ × ℚ × ℚ

/-- `MatrixTransformation.transform_point(x, y, z)`: the point multiplied
by the matrix's inverse; `none` when `inverse` raises. -/
def transform_pointM (m : M16) (x y z : ℚ) : Option Pt :=
  match inverseM m with
  | none => none
  | some b =>
      some (x * b.a0 + y * b.a4 + z * b.a8 + b.a12,
            x * b.a1 + y * b.a5 + z * b.a9 + b.a13,
            x * b.a2 + y * b.a6 + z * b.a10 + b.a14)

/-- The mutable state of a `MatrixTransformation`: the current matrix and
the push/pop stack (the source appends to / pops from the end of a Python
list; the head of `stack` here is the most recently pushed entry). -/
structure MT where
  matrix : M16
  stack : List M16
deriving DecidableEq

/-- `MatrixTransformation.push`. -/
def MTpush (t : MT) : MT := { t with stack := t.matrix :: t.stack }

/-- `MatrixTransformation.pop`; popping an empty stack raises
(`list.pop` on an empty list), embedded as `none`. -/
def MTpop (t : MT) : Option MT :=
  match t.stack with
  | [] => none
  | m :: rest => some { matrix := m, stack := rest }

/-- One translate/rotate/scale call on a `MatrixTransformation` (each one
reduces to `premultiply`). -/
def MTapplyOp (t : MT) (op : TOp) : MT :=
  { t with matrix := premulM (opMat op) t.matrix }

/-- A sequence of calls on a `MatrixTransformation`. -/
def MTapplyOps (t : MT) : List TOp → MT
  | [] => t
  | op :: rest => MTapplyOps (MTapplyOp t op) rest

/-- The mutable state of a `PointTransformation`: the tracked point, the
constructor's original point, and the push/pop stack of saved points. -/
structure PT where
  point : Pt
  original : Pt
  stack : List Pt
deriving DecidableEq

/-- `PointTransformation.push`. -/
def PTpush (t : PT) : PT := { t with stack := t.point :: t.stack }

/-- `PointTransformation.pop`; `none` embeds popping an empty stack. -/
def PTpop (t : PT) : Option PT :=
  match t.stack with
  | [] => none
  | p :: rest => some { t with point := p, stack := rest }

/-- `PointTransformation.translate`. -/
def PTtranslate (t : PT) (x y z : ℚ) : PT :=
  { t with point := (t.point.1 - x, t.point.2.1 - y, t.point.2.2 - z) }

/-- `PointTransformation.scale`; dividing by a zero factor raises
`ZeroDivisionError`, embedded as `none`. -/
def PTscale (t : PT) (x y z : ℚ) : Option PT :=
  if x = 0 ∨ y = 0 ∨ z = 0 then none
  else some { t with point := (t.point.1 / x, t.point.2.1 / y, t.point.2.2 / z) }

/-- The denominator of `PointTransformation.premultiply` (the determinant
expression every component divides by, with the source's variable naming
`xx = values[0]`, `yx = values[1]`, and so on). -/
def ptDen (v : M16) : ℚ :=
  v.a0 * (v.a5 * v.a10 - v.a9 * v.a6) + v.a1 * (v.a8 * v.a6 - v.a4 * v.a10)
    + (v.a4 * v.a9 - v.a8 * v.a5) * v.a2

/-- `PointTransformation.premultiply(values)`: applies the inverse of the
supplied matrix to the tracked point via the source's closed-form cofactor
expressions.  A zero denominator raises `ZeroDivisionError` (`none`).
Source naming: `xx yx zx _ , xy yy zy _ , xz yz zz _ , x1 y1 z1 _` =
`a0 a1 a2 a3 , a4 a5 a6 a7 , a8 a9 a10 a11 , a12 a13 a14 a15`. -/
def PTpremultiply (t : PT) (v : M16) : Option PT :=
  let xx := v.a0
  let yx := v.a1
  let zx := v.a2
  let xy := v.a4
  let yy := v.a5
  let zy := v.a6
  let xz := v.a8
  let yz := v.a9
  let zz := v.a10
  let x1 := v.a12
  let y1 := v.a13
  let z1 := v.a14
  let x := t.point.1
  let y := t.point.2.1
  let z := t.point.2.2
  let den := xx * (yy * zz - yz * zy) + yx * (xz * zy - xy * zz)
      + (xy * yz - xz * yy) * zx
  if den = 0 then none
  else
    some { t with point :=
      ((-xy * (yz * z1 - y1 * zz) + yy * (xz * z1 - x1 * zz)
          - (xz * y1 - x1 * yz) * zy) / den
        + (x * (yy * zz - yz * zy)) / den
        + (y * (xz * zy - xy * zz)) / den
        + ((xy * yz - xz * yy) * z) / den,
       (xx * (yz * z1 - y1 * zz) - yx * (xz * z1 - x1 * zz)
          + (xz * y1 - x1 * yz) * zx) / den
        + (x * (yz * zx - yx * zz)) / den
        + (y * (xx * zz - xz * zx)) / den
        + ((xz * yx - xx * yz) * z) / den,
       (-xx * (yy * z1 - y1 * zy) + yx * (xy * z1 - x1 * zy)
          - (xy * y1 - x1 * yy) * zx) / den
        + (x * (yx * zy - yy * zx)) / den
        + (y * (xy * zx - xx * zy)) / den
        + ((xx * yy - xy * yx) * z) / den) }

/-- `PointTransformation.rotate`: skips when the angle is zero
(`(c, s) = (1, 0)`), uses the cheap 2-D path for the pure z axis, and
falls back to `premultiply` with the rotation matrix otherwise.  A zero
denominator in the cheap path raises, embedded as `none`. -/
def PTrotate (t : PT) (c s x y z : ℚ) : Option PT :=
  if c = 1 ∧ s = 0 then some t
  else if x = 0 ∧ y = 0 ∧ z = 1 then
    let den := c * c + s * s
    if den = 0 then none
    else
      some { t with point :=
        ((t.point.2.1 * s) / den + (t.point.1 * c) / den,
         (t.point.2.1 * c) / den - (t.point.1 * s) / den,
         t.point.2.2) }
  else PTpremultiply t (rotM c s x y z)

/-- One translate/rotate/scale call on a `PointTransformation`. -/
def PTapplyOp (t : PT) : TOp → Option PT
  | .tr x y z => some (PTtranslate t x y z)
  | .rot c s x y z => PTrotate t c s x y z
  | .sc x y z => PTscale t x y z

/-- A sequence of calls on a `PointTransformation`; `none` as soon as one
raises. -/
def PTapplyOps (t : PT) : List TOp → Option PT
  | [] => some t
  | op :: rest =>
      match PTapplyOp t op with
      | none => none
      | some t2 => PTapplyOps t2 rest

/-- The sentinel point a `Layer` substitutes when a child's transform chain
is singular: Python's `(False, False, False)`; `False` compares equal to
`0`, so it is embedded as the zero point. -/
def sentinelPt : Pt := (0, 0, 0)

/-!
### `objects.py`: `GraphicsObject`

The per-object data that `is_hidden`, `do_draw`, `transform`,
`pointer_event` and `keyboard_event` read.  As for rotations above, the
`rotation` angle is embedded via its cosine/sine pair `(rotC, rotS)`;
`rotation = 0` corresponds to `(1, 0)`.  `opacity` is `none` for classes
without an opacity property (`getattr(self, 'opacity', 1)` then yields 1).
-/

/-- The animated-property state of a `GraphicsObject` read by the draw and
event machinery. -/
structure GObj where
  hidden : Bool
  dead : Bool
  scale : Pt
  opacity : Option ℚ
  position : Pt
  anchor : Pt
  rotC : ℚ
  rotS : ℚ
deriving DecidableEq

/-- Python's `any(self.scale)`: some scale component is truthy (nonzero). -/
def anyScale (o : GObj) : Bool :=
  decide (o.scale.1 ≠ 0) || decide (o.scale.2.1 ≠ 0) || decide (o.scale.2.2 ≠ 0)

/-- `GraphicsObject.is_hidden`.  The source returns `True` when the object
is hidden, dead or has all-falsy scale; returns `False` when
`getattr(self, 'opacity', 1) <= 0`; and otherwise falls off the end,
returning `None`.  The three Python results are embedded as
`some true` / `some false` / `none`. -/
def is_hidden (o : GObj) : Option Bool :=
  if o.hidden || o.dead || !anyScale o then some true
  else if o.opacity.getD 1 ≤ 0 then some false
  else none

/-- Truthiness of the `is_hidden()` result (both `False` and `None` are
falsy in Python). -/
def isHiddenTruthy (o : GObj) : Bool :=
  is_hidden o == some true

/-- `GraphicsObject.transform`: translate by position, rotate about z,
scale, translate by the negated anchor — each via the matrix op it
premultiplies.  The rotation is skipped when the angle is zero
(`(rotC, rotS) = (1, 0)`), mirroring `rotate`'s `if not angle: return`. -/
def transformG (o : GObj) (m : M16) : M16 :=
  let m1 := premulM (translateM o.position.1 o.position.2.1 o.position.2.2) m
  let m2 := if o.rotC = 1 ∧ o.rotS = 0 then m1 else premulM (rotM o.rotC o.rotS 0 0 1) m1
  let m3 := premulM (scaleM o.scale.1 o.scale.2.1 o.scale.2.2) m2
  premulM (translateM (-o.anchor.1) (-o.anchor.2.1) (-o.anchor.2.2)) m3

/-- `GraphicsObject.do_draw` over a `MatrixTransformation`: returns the
transformation state after the call together with the matrix under which
`draw()` was invoked (`none` when the object was skipped as hidden, in
which case no transform work happens at all).  The `with
transformation.state` block is the push / transform / draw / pop
sequence. -/
def do_draw (o : GObj) (t : MT) : MT × Option M16 :=
  if isHiddenTruthy o then (t, none)
  else
    let pushed := MTpush t
    let applied : MT := { pushed with matrix := transformG o pushed.matrix }
    ((MTpop applied).getD applied, some applied.matrix)

/-- The dispatch gate of `GraphicsObject.pointer_event`: whether the
`on_pointer_<event>` handler is invoked (the base class defines every
handler, so only the `is_hidden()` check can stop dispatch). -/
def pointer_event_dispatches (o : GObj) : Bool :=
  !isHiddenTruthy o

/-- The dispatch gate of `GraphicsObject.keyboard_event`: whether the
`on_<event>` handler is invoked. -/
def keyboard_event_dispatches (o : GObj) : Bool :=
  !isHiddenTruthy o

/-!
### `objects.py`: the `Layer` pointer-event router

A `Layer` method interacts with a child object only through
`child.transform(transformation)` (which either raises
`ZeroDivisionError` or leaves `transformation.point` at the child-local
point), `child.hit_test(*point)`, `child.is_hidden()` and the child's
`on_pointer_*` handler return values.  For one event dispatch all of these
are fixed, so a child is embedded as a record of those observations:

* `transformPt`: `none` if `child.transform` raises (singular chain),
  otherwise the mapped local point `transformation.point`;
* `hit`: the truthiness of `child.hit_test` at that mapped point;
* `hiddenGate`: the truthiness of `child.is_hidden()` (a hidden child's
  `pointer_event` returns `None` without invoking the handler);
* `motionClaim` / `pressClaim`: the truthiness of the child's
  `on_pointer_motion` / `on_pointer_press` handler result.

`cid` is an identifier distinguishing child objects.
-/

/-- The observable behaviour of one child object during one pointer-event
dispatch. -/
structure Child where
  cid : Nat
  hiddenGate : Bool
  transformPt : Option Pt
  hit : Bool
  motionClaim : Bool
  pressClaim : Bool
deriving DecidableEq

/-- The point a `Layer` passes for this child: the mapped local point, or
the `(False, False, False)` sentinel when its transform chain raised. -/
def mapPt (c : Child) : Pt :=
  c.transformPt.getD sentinelPt

/-- Truthiness of the `hit` value yielded by `Layer._hit_test_generator`:
`None` (singular chain) is falsy, otherwise the `hit_test` result. -/
def hitOf (c : Child) : Bool :=
  c.transformPt.isSome && c.hit

/-- Truthiness of `child.pointer_event('motion', ...)`: the handler result,
or `None` (falsy) when the child is hidden. -/
def motionRet (c : Child) : Bool :=
  !c.hiddenGate && c.motionClaim

/-- Truthiness of `child.pointer_event('press', ...)`. -/
def pressRet (c : Child) : Bool :=
  !c.hiddenGate && c.pressClaim

/-- The kind of a dispatched pointer event. -/
inductive EvType where
  | motion
  | leave
  | press
  | release
  | drag
deriving DecidableEq

/-- One `child.pointer_event(etype, pointer, *pt, ...)` call made by a
`Layer` method (the dispatch log entry). -/
structure Ev where
  etype : EvType
  child : Child
  pt : Pt
  button : Option Nat
deriving DecidableEq

/-- Lookup in a Python dict modelled as an association list. -/
def lookupA {α : Type} (k : Nat) : List (Nat × α) → Option α
  | [] => none
  | kv :: rest => if kv.1 = k then some kv.2 else lookupA k rest

/-- Dict assignment `d[k] = v`: replace the binding or append a new one. -/
def setA {α : Type} (k : Nat) (v : α) : List (Nat × α) → List (Nat × α)
  | [] => [(k, v)]
  | kv :: rest => if kv.1 = k then (k, v) :: rest else kv :: setA k v rest

/-- Dict deletion `del d[k]`. -/
def delA {α : Type} (k : Nat) : List (Nat × α) → List (Nat × α)
  | [] => []
  | kv :: rest => if kv.1 = k then rest else kv :: delA k rest

/-- The `Layer` state the pointer router reads and writes: the ordered
child list, `hovered_children` (pointer → set of hovered children; a
Python `set` is embedded as its duplicate-free element list, used only
through membership) and `dragging_children` (pointer → button → captured
child, a `defaultdict(dict)`). -/
structure LayerSt where
  children : List Child
  hovered : List (Nat × List Child)
  dragging : List (Nat × List (Nat × Child))
deriving DecidableEq

/-- Python `set.add`: no-op when the element is already present. -/
def setAdd (c : Child) (s : List Child) : List Child :=
  if c ∈ s then s else c :: s

/-- The hit-test-and-dispatch loop of `Layer.on_pointer_motion` over the
reversed child list: dispatches `motion` to each child whose hit test
succeeds, collecting `new_hovered_children`, and stops at the first truthy
handler result.  Returns the dispatch log, the new hover set and the final
`retval` (`none` while nothing was dispatched). -/
def motionLoop : List Child → List Ev × List Child × Option Bool
  | [] => ([], [], none)
  | c :: rest =>
      if hitOf c then
        let ev : Ev := ⟨.motion, c, mapPt c, none⟩
        if motionRet c then ([ev], [c], some true)
        else
          let r := motionLoop rest
          (ev :: r.1, setAdd c r.2.1, if r.1.isEmpty then some false else r.2.2)
      else motionLoop rest

/-- The result of one `Layer` pointer-event method: the updated layer
state, the dispatch log, the returned value (`retval`), and whether an
exception propagated out of the method. -/
structure RouteOut where
  st : LayerSt
  events : List Ev
  ret : Option Bool
  raised : Bool
deriving DecidableEq

/-- `Layer.on_pointer_motion` for one pointer: the drag-continuation loop
over this pointer's capture table, the hit-test/motion loop in reverse
child order, the hover-exit (`leave`) loop over `hovered -
new_hovered_children`, and the hover-table update. -/
def on_pointer_motion (st : LayerSt) (ptr : Nat) : RouteOut :=
  let reg := (lookupA ptr st.dragging).getD []
  let dEvs := (reg.filter (fun bc => bc.2 ∈ st.children)).map
      (fun bc => (⟨.drag, bc.2, mapPt bc.2, some bc.1⟩ : Ev))
  let m := motionLoop st.children.reverse
  let hov := (lookupA ptr st.hovered).getD []
  let lEvs := (hov.filter (fun c => c ∉ m.2.1)).map
      (fun c => (⟨.leave, c, mapPt c, none⟩ : Ev))
  ⟨{ st with hovered := setA ptr m.2.1 st.hovered }, dEvs ++ m.1 ++ lEvs, m.2.2, false⟩

/-- `self.dragging_children[pointer][button] = child` on a
`defaultdict(dict)`. -/
def setCapture (ptr btn : Nat) (c : Child)
    (dr : List (Nat × List (Nat × Child))) : List (Nat × List (Nat × Child)) :=
  setA ptr (setA btn c ((lookupA ptr dr).getD [])) dr

/-- The loop of `Layer.on_pointer_press` over the reversed child list:
dispatch `press` to every child whose hit test succeeds until a handler
returns a truthy claim; then record the capture and return. -/
def pressLoop (ptr btn : Nat) (st : LayerSt) : List Child → RouteOut
  | [] => ⟨st, [], none, false⟩
  | c :: rest =>
      if hitOf c then
        let ev : Ev := ⟨.press, c, mapPt c, some btn⟩
        if pressRet c then
          ⟨{ st with dragging := setCapture ptr btn c st.dragging }, [ev], some true, false⟩
        else
          let r := pressLoop ptr btn st rest
          ⟨r.st, ev :: r.events, r.ret, r.raised⟩
      else pressLoop ptr btn st rest

/-- `Layer.on_pointer_press` for one pointer and button. -/
def on_pointer_press (st : LayerSt) (ptr btn : Nat) : RouteOut :=
  pressLoop ptr btn st st.children.reverse

/-- The capture-clearing tail of `Layer.on_pointer_release`:
`del self.dragging_children[pointer][button]`, then delete the pointer's
whole entry if no buttons remain captured for it. -/
def delCapture (ptr btn : Nat)
    (dr : List (Nat × List (Nat × Child))) : List (Nat × List (Nat × Child)) :=
  match lookupA ptr dr with
  | none => dr
  | some tab =>
      let tab2 := delA btn tab
      if tab2.isEmpty then delA ptr dr else setA ptr tab2 dr

/-- `Layer.on_pointer_release` for one pointer and button.  When no entry
exists, the `defaultdict` access `self.dragging_children[pointer]` still
creates an empty per-pointer dict before `[button]` raises `KeyError`
(caught by the source).  When the captured child is still in the child
list, `child.transform` runs with no `ZeroDivisionError` handler: a
singular chain propagates the exception out of the method (`raised`),
leaving the capture table unchanged. -/
def on_pointer_release (st : LayerSt) (ptr btn : Nat) : RouteOut :=
  match lookupA ptr st.dragging with
  | none => ⟨{ st with dragging := setA ptr [] st.dragging }, [], none, false⟩
  | some tab =>
      match lookupA btn tab with
      | none => ⟨st, [], none, false⟩
      | some c =>
          if c ∈ st.children then
            match c.transformPt with
            | none => ⟨st, [], none, true⟩
            | some p =>
                ⟨{ st with dragging := delCapture ptr btn st.dragging },
                 [⟨.release, c, p, some btn⟩], none, false⟩
          else ⟨{ st with dragging := delCapture ptr btn st.dragging }, [], none, false⟩

/-!
### `objects.py`: `die` / `reparent` over an object store

`GraphicsObject.die` and `reparent` mutate a heap of objects linked by
`parent` references and `children` lists, so they are embedded over a
store mapping object identifiers to their link state.  `die` is recursive
through `Layer.die`; a fuel parameter bounds the recursion depth (theorems
assume fuel exceeding the rank of the subtree, which always holds for the
finite trees the program builds).
-/

/-- The link state of one scene object: whether it is a `Layer`, its
`dead` flag, its `parent` back-reference and (for Layers) its `children`
list of identifiers. -/
structure SObj where
  isLayer : Bool
  dead : Bool
  parent : Option Nat
  children : List Nat
deriving DecidableEq

/-- A heap of scene objects, by identifier. -/
abbrev Store := Nat → SObj

/-- `self.dead = True` on object `i`. -/
def setDead (s : Store) (i : Nat) : Store :=
  fun j => if j = i then { s j with dead := true } else s j

/-- `self.parent.children = [c for c in self.parent.children if c is not
self]`: remove `c` from the children list of `p`. -/
def removeChild (s : Store) (p c : Nat) : Store :=
  fun j => if j = p then { s j with children := (s j).children.filter (fun x => x ≠ c) }
           else s j

/-- Assign the `parent` attribute of object `i`. -/
def setParent (s : Store) (i : Nat) (v : Option Nat) : Store :=
  fun j => if j = i then { s j with parent := v } else s j

/-- Insert `c` into the children list of `p`: prepended when `to_back`,
appended otherwise. -/
def addChild (s : Store) (p c : Nat) (toBack : Bool) : Store :=
  fun j => if j = p then
             { s j with children := if toBack then c :: (s j).children
                                    else (s j).children ++ [c] }
           else s j

/-- `GraphicsObject.reparent(new_parent, to_back)`: detach from the current
parent (when there is one), then attach to the new parent (when given). -/
def reparent (s : Store) (i : Nat) (newParent : Option Nat) (toBack : Bool) : Store :=
  let s1 := match (s i).parent with
    | some p => setParent (removeChild s p i) i none
    | none => s
  match newParent with
  | none => s1
  | some np => setParent (addChild s1 np i toBack) i (some np)

/-- `die()`: set `dead`, detach from the parent, and (for a `Layer`)
call `die()` on every child of the snapshot of `self.children` whose
`parent` is still `self` at that iteration.  The Python loop iterates the
list object read after `super().die()`, which later reparents rebind
rather than mutate, so the fold runs over that snapshot while the store
evolves. -/
def die : Nat → Store → Nat → Store
  | 0, s, _ => s
  | f + 1, s, i =>
      let s1 := reparent (setDead s i) i none false
      if (s i).isLayer then
        ((s1 i).children).foldl (fun t c => if (t c).parent = some i then die f t c else t) s1
      else s1

/-- Reachability through `children` lists: `Desc s i d` holds when `d` is
`i` itself or a descendant of `i` in store `s`. -/
inductive Desc (s : Store) : Nat → Nat → Prop
  | refl (i : Nat) : Desc s i i
  | step {i c d : Nat} : c ∈ (s i).children → Desc s c d → Desc s i d

/-- Well-formedness of a store with respect to a rank function: non-Layers
have no children; `children` membership and `parent` references agree
both ways; and ranks strictly decrease from parent to child (the scene
graph is a finite forest). -/
def WFr (s : Store) (rk : Nat → Nat) : Prop :=
  (∀ p, (s p).isLayer = false → (s p).children = []) ∧
  (∀ p c, c ∈ (s p).children → (s c).parent = some p) ∧
  (∀ c p, (s c).parent = some p → c ∈ (s p).children) ∧
  (∀ p c, c ∈ (s p).children → rk c < rk p)

/-!
### Derived descriptions and concrete instances used by the theorems
-/

/-- The prefix of a child list up to and including the first child whose
press handler returns a truthy claim (the children
`Layer.on_pointer_press` dispatches `press` to, among the hit ones). -/
def upToFirstClaim : List Child → List Child
  | [] => []
  | c :: rest => if pressRet c then [c] else c :: upToFirstClaim rest

/-- A child whose transform chain is singular (used to witness hover-exit
with the sentinel point). -/
def cSing : Child := ⟨3, false, none, true, false, false⟩

/-- A hit-reporting child with a falsy press handler, first in the child
list (drawn behind). -/
def cBack : Child := ⟨1, false, some (1, 1, 0), true, false, false⟩

/-- A hit-reporting child with a falsy press handler, last in the child
list (drawn in front, hit-tested first). -/
def cFront : Child := ⟨2, false, some (2, 2, 0), true, false, false⟩

/-- A hit-reporting, claim-returning child with a singular transform
chain (captured, then released). -/
def cSingCap : Child := ⟨4, false, none, true, false, true⟩

/-- A hit-reporting, claim-returning child with a regular transform
chain. -/
def cCap : Child := ⟨5, false, some (7, 8, 0), true, false, true⟩

/-- Layer state for the C1 witness: no children, pointer 0 hovering
`cSing`. -/
def stW : LayerSt := ⟨[], [(0, [cSing])], []⟩

/-- Layer state for the C2 counterexample: two overlapping hit children
whose press handlers both return falsy claims. -/
def st2 : LayerSt := ⟨[cBack, cFront], [], []⟩

/-- Layer state for the C3 counterexample: the singular child `cSingCap`
is attached and captured for pointer 0, button 0. -/
def st3 : LayerSt := ⟨[cSingCap], [], [(0, [(0, cSingCap)])]⟩

/-- Layer state for the C3 witness: the regular child `cCap` is attached
and captured for pointer 0, button 0. -/
def st3b : LayerSt := ⟨[cCap], [], [(0, [(0, cCap)])]⟩

/-- A fresh `MatrixTransformation` state. -/
def mt0 : MT := ⟨idM, []⟩

/-- The C4 counterexample object: alive, not hidden, scaled to zero on
the y axis only. -/
def oC4 : GObj := ⟨false, false, (1, 0, 1), none, (0, 0, 0), (0, 0, 0), 1, 0⟩

/-- The C10 witness object: alive, not hidden, unit scale, opacity 0. -/
def oC10 : GObj := ⟨false, false, (1, 1, 1), some 0, (0, 0, 0), (0, 0, 0), 1, 0⟩

/-- A hidden object (C4 witness). -/
def oHid : GObj := ⟨true, false, (1, 1, 1), none, (0, 0, 0), (0, 0, 0), 1, 0⟩

/-- Store for the C5 witness and C6 theorem: Layer 1 is the parent of
Layer 2, which is the parent of plain object 3. -/
def store0 : Store := fun n =>
  if n = 1 then ⟨true, false, none, [2]⟩
  else if n = 2 then ⟨true, false, some 1, [3]⟩
  else if n = 3 then ⟨false, false, some 2, []⟩
  else ⟨false, false, none, []⟩

/-- Rank function witnessing that `store0` is a forest. -/
def rank0 : Nat → Nat := fun n =>
  if n = 1 then 2 else if n = 2 then 1 else 0

/-- The C7/C9 counterexample sequence: rotate about z by the 3-4-5 angle,
scale by `(10^9, 10^-9, 1)` (all factors nonzero), rotate again.  The
resulting matrix has determinant exactly 1, but the magnitude of the
partial sums of the determinant expansion is about `4.6 * 10^17`, so the
near-singularity ratio check in `inverse` fires. -/
def ops7 : List TOp :=
  [.rot (3 / 5) (4 / 5) 0 0 1, .sc (10 ^ 9) (1 / 10 ^ 9) 1, .rot (3 / 5) (4 / 5) 0 0 1]

/-- The matrix built by `ops7`. -/
def m9 : M16 := applyOps ops7

/-- A fresh `PointTransformation` tracking the origin. -/
def pt0 : PT := ⟨(0, 0, 0), (0, 0, 0), []⟩

/-- A `PointTransformation` state for the C8 witness. -/
def pt8 : PT := ⟨(1, 2, 3), (1, 2, 3), []⟩

/-- An invertible matrix (a pure translation) for the C9 witness. -/
def mW : M16 := translateM 1 2 3

/-!
## Theorems

Generic helper lemmas about the dict embedding, then the claim theorems.
-/

theorem lookupA_setA_self {α : Type} (k : Nat) (v : α) (l : List (Nat × α)) :
    lookupA k (setA k v l) = some v := by
  induction l with
  | nil => simp [setA, lookupA]
  | cons kv rest ih =>
      by_cases h : kv.1 = k
      · simp [setA, lookupA, h]
      · simp [setA, lookupA, h, ih]

theorem lookupA_eq_none_of_not_mem (k : Nat) (l : List (Nat × α))
    (h : k ∉ l.map Prod.fst) : lookupA k l = none := by
  induction l with
  | nil => simp [lookupA]
  | cons kv rest ih =>
      simp only [List.map_cons, List.mem_cons] at h
      push_neg at h
      simp [lookupA, Ne.symm h.1, ih h.2]

theorem lookupA_delA_self (k : Nat) (l : List (Nat × α))
    (h : (l.map Prod.fst).Nodup) : lookupA k (delA k l) = none := by
  induction l with
  | nil => simp [delA, lookupA]
  | cons kv rest ih =>
      simp only [List.map_cons, List.nodup_cons] at h
      by_cases he : kv.1 = k
      · simpa [delA, he] using lookupA_eq_none_of_not_mem k rest (he ▸ h.1)
      · simp [delA, lookupA, he, ih h.2]

/-!
### C8: the push/pop law
-/

theorem mtops_stack (S : List TOp) : ∀ t : MT, (MTapplyOps t S).stack = t.stack := by
  induction S with
  | nil => intro t; rfl
  | cons op rest ih => intro t; simpa [MTapplyOps, MTapplyOp] using ih (MTapplyOp t op)

theorem ptop_keeps (t : PT) (op : TOp) (t2 : PT) (h : PTapplyOp t op = some t2) :
    t2.stack = t.stack ∧ t2.original = t.original := by
  cases op with
  | tr x y z =>
      simp only [PTapplyOp, PTtranslate, Option.some.injEq] at h
      subst h; exact ⟨rfl, rfl⟩
  | sc x y z =>
      simp only [PTapplyOp, PTscale] at h
      split_ifs at h <;>
        first
          | exact Option.noConfusion h
          | (simp only [Option.some.injEq] at h; subst h; exact ⟨rfl, rfl⟩)
  | rot c s x y z =>
      simp only [PTapplyOp, PTrotate, PTpremultiply] at h
      split_ifs at h <;>
        first
          | exact Option.noConfusion h
          | (simp only [Option.some.injEq] at h; subst h; exact ⟨rfl, rfl⟩)

theorem ptops_keeps (S : List TOp) : ∀ t t2 : PT, PTapplyOps t S = some t2 →
    t2.stack = t.stack ∧ t2.original = t.original := by
  induction S with
  | nil =>
      intro t t2 h
      simp only [PTapplyOps, Option.some.injEq] at h
      subst h; exact ⟨rfl, rfl⟩
  | cons op rest ih =>
      intro t t2 h
      simp only [PTapplyOps] at h
      cases hop : PTapplyOp t op with
      | none => rw [hop] at h; exact absurd h (by simp)
      | some t1 =>
          rw [hop] at h
          have k1 := ptop_keeps t op t1 hop
          have k2 := ih t1 t2 h
          exact ⟨k1.1 ▸ k2.1, k1.2 ▸ k2.2⟩

/-- C8: for any transformation state (a `MatrixTransformation` matrix or a
`PointTransformation` tracked point) and any sequence `S` of
translate/rotate/scale operations that applies without error, running
`push()`, then `S`, then `pop()` restores the queryable state exactly
(hence within any floating tolerance) and leaves the stack unchanged. -/
theorem c8_push_pop_law (mt : MT) (pt : PT) (S : List TOp) (pt2 : PT)
    (h : PTapplyOps (PTpush pt) S = some pt2) :
    MTpop (MTapplyOps (MTpush mt) S) = some mt ∧ PTpop pt2 = some pt := by
  constructor
  · have hs : (MTapplyOps (MTpush mt) S).stack = mt.matrix :: mt.stack :=
      mtops_stack S (MTpush mt)
    simp only [MTpop, hs]
  · have hk := ptops_keeps S (PTpush pt) pt2 h
    have hs : pt2.stack = pt.point :: pt.stack := hk.1
    have ho : pt2.original = pt.original := hk.2
    simp only [PTpop, hs, ho, Option.some.injEq]

/-- Witness for C8 at a concrete state and operation sequence. -/
theorem c8_push_pop_law_witness :
    MTpop (MTapplyOps (MTpush mt0) [TOp.tr 1 0 0]) = some mt0 ∧
      PTpop ⟨(0, 2, 3), (1, 2, 3), [(1, 2, 3)]⟩ = some pt8 :=
  c8_push_pop_law mt0 pt8 [TOp.tr 1 0 0] ⟨(0, 2, 3), (1, 2, 3), [(1, 2, 3)]⟩
    (by norm_num [PTapplyOps, PTapplyOp, PTtranslate, PTpush, pt8])

/-!
### C2: press routing
-/

theorem pressLoop_eq (ptr btn : Nat) (st : LayerSt) : ∀ l : List Child,
    pressLoop ptr btn st l =
      ⟨match (l.filter hitOf).find? pressRet with
        | some c => { st with dragging := setCapture ptr btn c st.dragging }
        | none => st,
       (upToFirstClaim (l.filter hitOf)).map (fun c => ⟨.press, c, mapPt c, some btn⟩),
       ((l.filter hitOf).find? pressRet).map (fun _ => true),
       false⟩ := by
  intro l
  induction l with
  | nil => rfl
  | cons c rest ih =>
      by_cases hhit : hitOf c
      · by_cases hp : pressRet c
        · simp [pressLoop, hhit, hp, List.filter_cons, upToFirstClaim,
            List.find?_cons_of_pos]
        · simp [pressLoop, hhit, hp, List.filter_cons, upToFirstClaim,
            List.find?_cons_of_neg, ih]
      · simp [pressLoop, hhit, List.filter_cons, ih]

/-- C2 (amended): a press is hit-tested against the children in reverse
list order, and `press` is dispatched to each hit child in that order up
to and including the first whose handler returns a truthy claim; when such
a child exists the capture table entry `capture[pointer][button]` is set
to it and the search stops (so children hit-tested after it receive no
press), and when no hit child claims, every hit child receives the press
and the layer state is unchanged. -/
theorem c2_press_routing (st : LayerSt) (ptr btn : Nat) :
    (on_pointer_press st ptr btn).events =
      (upToFirstClaim ((st.children.reverse).filter hitOf)).map
        (fun c => ⟨.press, c, mapPt c, some btn⟩) ∧
    (match ((st.children.reverse).filter hitOf).find? pressRet with
      | some c =>
          (on_pointer_press st ptr btn).st =
            { st with dragging := setCapture ptr btn c st.dragging } ∧
          lookupA btn ((lookupA ptr (on_pointer_press st ptr btn).st.dragging).getD [])
            = some c ∧
          (on_pointer_press st ptr btn).ret = some true
      | none =>
          (on_pointer_press st ptr btn).st = st ∧
          (on_pointer_press st ptr btn).ret = none) := by
  have he := pressLoop_eq ptr btn st st.children.reverse
  rw [on_pointer_press, he]
  cases hf : ((st.children.reverse).filter hitOf).find? pressRet with
  | none => exact ⟨rfl, rfl, rfl⟩
  | some c =>
      refine ⟨rfl, rfl, ?_, rfl⟩
      show lookupA btn ((lookupA ptr (setCapture ptr btn c st.dragging)).getD []) = some c
      rw [setCapture, lookupA_setA_self]
      simp only [Option.getD_some]
      exact lookupA_setA_self btn c _

/-- Counterexample to C2 as stated: both overlapping children of `st2`
report a hit and the front child's handler returns a falsy claim, so the
press is dispatched to the front child *and then also* to the rear child
(the claim says no further children receive the press). -/
theorem c2_press_counterexample :
    (on_pointer_press st2 0 0).events =
      [⟨.press, cFront, (2, 2, 0), some 0⟩, ⟨.press, cBack, (1, 1, 0), some 0⟩] ∧
    cFront ≠ cBack := by decide

/-!
### C3: release routing
-/

theorem delCapture_of_lookup (ptr btn : Nat) (dr : List (Nat × List (Nat × Child)))
    (tab : List (Nat × Child)) (h : lookupA ptr dr = some tab) :
    delCapture ptr btn dr =
      (if (delA btn tab).isEmpty then delA ptr dr else setA ptr (delA btn tab) dr) := by
  simp [delCapture, h]

/-- C3 (amended): when `capture[pointer][button]` holds child `c`, a
release dispatches `release` to `c` at its mapped point when `c` is still
attached and its transform chain is regular, dispatches nothing when `c`
is detached, and in both of those cases clears the capture entry and
prunes the pointer's capture table when no buttons remain; but when `c`
is still attached and its transform chain is singular, the
`ZeroDivisionError` propagates out of `on_pointer_release` and the capture
table is left unchanged (the claim's "on every outcome" clearing does not
hold on that path). -/
theorem c3_release_capture (st : LayerSt) (ptr btn : Nat) (tab : List (Nat × Child))
    (c : Child) (h1 : lookupA ptr st.dragging = some tab) (h2 : lookupA btn tab = some c)
    (hn1 : (st.dragging.map Prod.fst).Nodup) (hn2 : (tab.map Prod.fst).Nodup) :
    (c ∈ st.children → ∀ p, c.transformPt = some p →
       (on_pointer_release st ptr btn).events = [⟨.release, c, p, some btn⟩] ∧
       (on_pointer_release st ptr btn).raised = false ∧
       (on_pointer_release st ptr btn).st.dragging = delCapture ptr btn st.dragging) ∧
    (c ∉ st.children →
       (on_pointer_release st ptr btn).events = [] ∧
       (on_pointer_release st ptr btn).raised = false ∧
       (on_pointer_release st ptr btn).st.dragging = delCapture ptr btn st.dragging) ∧
    (c ∈ st.children → c.transformPt = none →
       (on_pointer_release st ptr btn).raised = true ∧
       (on_pointer_release st ptr btn).st = st) ∧
    lookupA btn ((lookupA ptr (delCapture ptr btn st.dragging)).getD []) = none ∧
    ((delA btn tab).isEmpty = true → lookupA ptr (delCapture ptr btn st.dragging) = none) ∧
    ((delA btn tab).isEmpty = false →
       lookupA ptr (delCapture ptr btn st.dragging) = some (delA btn tab)) := by
  refine ⟨?_, ?_, ?_, ?_, ?_, ?_⟩
  · intro hmem p hp
    simp [on_pointer_release, h1, h2, hmem, hp]
  · intro hmem
    simp [on_pointer_release, h1, h2, hmem]
  · intro hmem hp
    simp [on_pointer_release, h1, h2, hmem, hp]
  · rw [delCapture_of_lookup ptr btn st.dragging tab h1]
    by_cases hemp : (delA btn tab).isEmpty
    · simp [hemp, lookupA_delA_self ptr st.dragging hn1, lookupA]
    · simp [hemp, lookupA_setA_self, lookupA_delA_self btn tab hn2]
  · intro hemp
    rw [delCapture_of_lookup ptr btn st.dragging tab h1]
    simp [hemp, lookupA_delA_self ptr st.dragging hn1]
  · intro hemp
    rw [delCapture_of_lookup ptr btn st.dragging tab h1]
    simp [hemp, lookupA_setA_self]

/-- Counterexample to C3 as stated: the captured child of `st3` is still
attached but its transform chain is singular, so the release raises and
the capture entry for (pointer 0, button 0) is *not* cleared. -/
theorem c3_release_counterexample :
    (on_pointer_release st3 0 0).raised = true ∧
    (on_pointer_release st3 0 0).st = st3 ∧
    lookupA 0 ((lookupA 0 (on_pointer_release st3 0 0).st.dragging).getD [])
      = some cSingCap := by decide

/-!
### C1: motion routing, hover bookkeeping and leave events
-/

theorem setAdd_mem (c x : Child) (s : List Child) :
    x ∈ setAdd c s ↔ x = c ∨ x ∈ s := by
  by_cases h : c ∈ s
  · simp only [setAdd, if_pos h]
    constructor
    · exact fun hx => Or.inr hx
    · rintro (rfl | hx)
      · exact h
      · exact hx
  · simp [setAdd, if_neg h]

theorem motionLoop_etype (l : List Child) :
    ∀ e ∈ (motionLoop l).1, e.etype = EvType.motion := by
  induction l with
  | nil => simp [motionLoop]
  | cons c rest ih =>
      by_cases hhit : hitOf c
      · by_cases hm : motionRet c
        · simp [motionLoop, hhit, hm]
        · intro e he
          simp only [motionLoop, if_pos hhit, if_neg hm, List.mem_cons] at he
          rcases he with rfl | he
          · rfl
          · exact ih e he
      · simpa [motionLoop, hhit] using ih

theorem motionLoop_mem_iff (l : List Child) (c : Child) :
    c ∈ (motionLoop l).2.1 ↔ (⟨.motion, c, mapPt c, none⟩ : Ev) ∈ (motionLoop l).1 := by
  induction l with
  | nil => simp [motionLoop]
  | cons d rest ih =>
      by_cases hhit : hitOf d
      · by_cases hm : motionRet d
        · simp only [motionLoop, if_pos hhit, if_pos hm, List.mem_singleton, Ev.mk.injEq,
            true_and, and_true]
          constructor
          · intro h; exact ⟨h, by rw [h]⟩
          · intro h; exact h.1
        · simp only [motionLoop, if_pos hhit, if_neg hm, setAdd_mem, List.mem_cons,
            Ev.mk.injEq, true_and, and_true]
          constructor
          · rintro (rfl | hmem)
            · exact Or.inl ⟨rfl, rfl⟩
            · exact Or.inr (ih.1 hmem)
          · rintro (⟨rfl, -⟩ | hmem)
            · exact Or.inl rfl
            · exact Or.inr (ih.2 hmem)
      · simp only [motionLoop, if_neg hhit]
        exact ih

/-- C1: after a motion dispatch, each child that was in the stored hover
set for the pointer but not in the new hover set is dispatched exactly one
`leave` event, carrying its mapped local point or the sentinel
`(False, False, False)` when its transform chain is singular; and the
stored hover set afterwards is exactly the set of children that were
dispatched `motion` (which only happens on a positive hit).  The `Nodup`
hypothesis is the Python `set` invariant on the stored hover set. -/
theorem c1_hover_leave (st : LayerSt) (ptr : Nat)
    (hnd : ((lookupA ptr st.hovered).getD []).Nodup) :
    (∀ c, c ∈ (lookupA ptr st.hovered).getD [] →
       c ∉ (lookupA ptr (on_pointer_motion st ptr).st.hovered).getD [] →
       (on_pointer_motion st ptr).events.count ⟨.leave, c, mapPt c, none⟩ = 1 ∧
       ∀ p b, (⟨.leave, c, p, b⟩ : Ev) ∈ (on_pointer_motion st ptr).events →
         p = mapPt c ∧ b = none) ∧
    (∀ c, c ∈ (lookupA ptr (on_pointer_motion st ptr).st.hovered).getD [] ↔
       (⟨.motion, c, mapPt c, none⟩ : Ev) ∈ (on_pointer_motion st ptr).events) := by
  have hnew : (lookupA ptr (on_pointer_motion st ptr).st.hovered).getD []
      = (motionLoop st.children.reverse).2.1 := by
    simp [on_pointer_motion, lookupA_setA_self]
  have hev : (on_pointer_motion st ptr).events =
      ((((lookupA ptr st.dragging).getD []).filter
          (fun bc => bc.2 ∈ st.children)).map
        (fun bc => (⟨.drag, bc.2, mapPt bc.2, some bc.1⟩ : Ev)))
      ++ (motionLoop st.children.reverse).1
      ++ ((((lookupA ptr st.hovered).getD []).filter
            (fun c => c ∉ (motionLoop st.children.reverse).2.1)).map
          (fun c => (⟨.leave, c, mapPt c, none⟩ : Ev))) := by
    simp [on_pointer_motion]
  have hdrag : ∀ e ∈ (((lookupA ptr st.dragging).getD []).filter
      (fun bc => bc.2 ∈ st.children)).map
        (fun bc => (⟨.drag, bc.2, mapPt bc.2, some bc.1⟩ : Ev)), e.etype = EvType.drag := by
    intro e he
    rcases List.mem_map.1 he with ⟨bc, -, rfl⟩
    rfl
  have hleave : ∀ e ∈ ((((lookupA ptr st.hovered).getD []).filter
      (fun c => c ∉ (motionLoop st.children.reverse).2.1)).map
        (fun c => (⟨.leave, c, mapPt c, none⟩ : Ev))),
      e.etype = EvType.leave ∧ ∃ d, d ∈ (lookupA ptr st.hovered).getD [] ∧
        d ∉ (motionLoop st.children.reverse).2.1 ∧ e = ⟨.leave, d, mapPt d, none⟩ := by
    intro e he
    rcases List.mem_map.1 he with ⟨d, hd, rfl⟩
    rcases List.mem_filter.1 hd with ⟨hd1, hd2⟩
    exact ⟨rfl, d, hd1, by simpa using hd2, rfl⟩
  constructor
  · intro c hc hcn
    rw [hnew] at hcn
    constructor
    · rw [hev]
      rw [List.count_append, List.count_append]
      have h1 : (((((lookupA ptr st.dragging).getD []).filter
          (fun bc => bc.2 ∈ st.children)).map
            (fun bc => (⟨.drag, bc.2, mapPt bc.2, some bc.1⟩ : Ev)))).count
              (⟨.leave, c, mapPt c, none⟩ : Ev) = 0 := by
        rw [List.count_eq_zero]
        intro hmem
        exact absurd (hdrag _ hmem) (by simp)
      have h2 : ((motionLoop st.children.reverse).1).count
          (⟨.leave, c, mapPt c, none⟩ : Ev) = 0 := by
        rw [List.count_eq_zero]
        intro hmem
        exact absurd (motionLoop_etype _ _ hmem) (by simp)
      have h3 : (((((lookupA ptr st.hovered).getD []).filter
          (fun c => c ∉ (motionLoop st.children.reverse).2.1)).map
            (fun c => (⟨.leave, c, mapPt c, none⟩ : Ev)))).count
              (⟨.leave, c, mapPt c, none⟩ : Ev) = 1 := by
        have hinj : Function.Injective
            (fun c => (⟨.leave, c, mapPt c, none⟩ : Ev)) := by
          intro a b hab
          simp only [Ev.mk.injEq, true_and, and_true] at hab
          exact hab.1
        rw [List.count_map_of_injective _ _ hinj]
        refine List.count_eq_one_of_mem (hnd.filter _) ?_
        exact List.mem_filter.2 ⟨hc, by simpa using hcn⟩
      rw [h1, h2, h3]
    · intro p b hmem
      rw [hev] at hmem
      rcases List.mem_append.1 hmem with hmem | hmem3
      · rcases List.mem_append.1 hmem with hmem1 | hmem2
        · exact absurd (hdrag _ hmem1) (by simp)
        · exact absurd (motionLoop_etype _ _ hmem2) (by simp)
      · rcases hleave _ hmem3 with ⟨-, d, -, -, hde⟩
        have : c = d ∧ p = mapPt d ∧ b = none := by
          simpa [Ev.mk.injEq] using hde
        rcases this with ⟨rfl, rfl, rfl⟩
        exact ⟨rfl, rfl⟩
  · intro c
    rw [hnew, hev]
    rw [motionLoop_mem_iff]
    constructor
    · intro hmem
      exact List.mem_append.2 (Or.inl (List.mem_append.2 (Or.inr hmem)))
    · intro hmem
      rcases List.mem_append.1 hmem with hmem | hmem3
      · rcases List.mem_append.1 hmem with hmem1 | hmem2
        · exact absurd (hdrag _ hmem1) (by simp)
        · exact hmem2
      · rcases hleave _ hmem3 with ⟨habs, -⟩
        exact absurd habs (by simp)

/-- Witness for C1: in `stW`, pointer 0 was hovering the singular child
`cSing`, which leaves on the next motion with the sentinel point. -/
theorem c1_hover_leave_witness :
    cSing ∈ (lookupA 0 stW.hovered).getD [] ∧
    cSing ∉ (lookupA 0 (on_pointer_motion stW 0).st.hovered).getD [] ∧
    (on_pointer_motion stW 0).events.count ⟨.leave, cSing, mapPt cSing, none⟩ = 1 := by
  have h := c1_hover_leave stW 0 (by decide)
  have h1 : cSing ∈ (lookupA 0 stW.hovered).getD [] := by decide
  have h2 : cSing ∉ (lookupA 0 (on_pointer_motion stW 0).st.hovered).getD [] := by decide
  exact ⟨h1, h2, (h.1 cSing h1 h2).1⟩

/-- Witness for C3 (amended) at a concrete capture with a regular
transform chain. -/
theorem c3_release_capture_witness :
    (on_pointer_release st3b 0 0).events = [⟨.release, cCap, (7, 8, 0), some 0⟩] ∧
    (on_pointer_release st3b 0 0).raised = false ∧
    lookupA 0 ((lookupA 0 (delCapture 0 0 st3b.dragging)).getD []) = none := by
  have h := c3_release_capture st3b 0 0 [(0, cCap)] cCap (by decide) (by decide)
    (by decide) (by decide)
  have hm : cCap ∈ st3b.children := by decide
  have hp : cCap.transformPt = some (7, 8, 0) := by decide
  exact ⟨(h.1 hm (7, 8, 0) hp).1, (h.1 hm (7, 8, 0) hp).2.1, h.2.2.2.1⟩

/-!
### C4 and C10: the `is_hidden` gate
-/

/-- C4 (amended): a node whose `hidden` or `dead` flag is set, or whose
scale is zero on *every* axis, is excluded from drawing (`do_draw` returns
with no transform work) and from pointer and keyboard dispatch.  (Zero
scale on a single axis does not make `is_hidden()` truthy: the source
tests `not any(self.scale)`.) -/
theorem c4_hidden_exclusion (o : GObj) (t : MT)
    (h : o.hidden = true ∨ o.dead = true ∨
      (o.scale.1 = 0 ∧ o.scale.2.1 = 0 ∧ o.scale.2.2 = 0)) :
    is_hidden o = some true ∧ do_draw o t = (t, none) ∧
    pointer_event_dispatches o = false ∧ keyboard_event_dispatches o = false := by
  have hcond : (o.hidden || o.dead || !anyScale o) = true := by
    rcases h with h | h | ⟨h1, h2, h3⟩
    · simp [h]
    · simp [h]
    · simp [anyScale, h1, h2, h3]
  have hih : is_hidden o = some true := by
    simp [is_hidden, hcond]
  have hth : isHiddenTruthy o = true := by
    simp [isHiddenTruthy, hih]
  exact ⟨hih, by simp [do_draw, hth], by simp [pointer_event_dispatches, hth],
    by simp [keyboard_event_dispatches, hth]⟩

/-- Witness for C4 (amended) on a concrete hidden object. -/
theorem c4_hidden_exclusion_witness :
    is_hidden oHid = some true ∧ do_draw oHid mt0 = (mt0, none) ∧
    pointer_event_dispatches oHid = false ∧ keyboard_event_dispatches oHid = false :=
  c4_hidden_exclusion oHid mt0 (Or.inl (by decide))

/-- Counterexample to C4 as stated: the object `oC4` has scale `(1, 0, 1)`
(zero on one axis), is not hidden and not dead, yet `is_hidden()` is falsy
and the object is drawn (with transform work) and dispatched pointer and
keyboard events. -/
theorem c4_zero_axis_counterexample :
    oC4.scale = (1, 0, 1) ∧ oC4.hidden = false ∧ oC4.dead = false ∧
    isHiddenTruthy oC4 = false ∧ (do_draw oC4 mt0).2.isSome = true ∧
    pointer_event_dispatches oC4 = true ∧ keyboard_event_dispatches oC4 = true := by
  refine ⟨rfl, rfl, rfl, ?_, ?_, ?_, ?_⟩ <;>
    simp [isHiddenTruthy, is_hidden, anyScale, oC4, do_draw,
      pointer_event_dispatches, keyboard_event_dispatches]

/-- C10: an object that is not hidden, not dead and has some nonzero scale
component is still active even at opacity ≤ 0: `is_hidden()` takes the
`opacity <= 0` branch and returns `False` (falsy), so `do_draw` still
draws it (the transform and draw happen) and pointer/keyboard events are
still dispatched. -/
theorem c10_transparent_still_active (o : GObj) (t : MT) (q : ℚ)
    (h1 : o.hidden = false) (h2 : o.dead = false) (h3 : anyScale o = true)
    (h4 : o.opacity = some q) (h5 : q ≤ 0) :
    is_hidden o = some false ∧ isHiddenTruthy o = false ∧
    (do_draw o t).2 = some (transformG o t.matrix) ∧
    pointer_event_dispatches o = true ∧ keyboard_event_dispatches o = true := by
  have hih : is_hidden o = some false := by
    simp [is_hidden, h1, h2, h3, h4, h5]
  have hth : isHiddenTruthy o = false := by
    simp [isHiddenTruthy, hih]
  refine ⟨hih, hth, ?_, ?_, ?_⟩
  · simp [do_draw, hth, MTpush]
  · simp [pointer_event_dispatches, hth]
  · simp [keyboard_event_dispatches, hth]

/-- Witness for C10 on a concrete fully transparent object. -/
theorem c10_transparent_still_active_witness :
    is_hidden oC10 = some false ∧ isHiddenTruthy oC10 = false ∧
    (do_draw oC10 mt0).2 = some (transformG oC10 mt0.matrix) ∧
    pointer_event_dispatches oC10 = true ∧ keyboard_event_dispatches oC10 = true :=
  c10_transparent_still_active oC10 mt0 0 (by decide) (by decide) (by decide)
    (by decide) (by decide)

/-!
### C6: `die` detaches immediately
-/

/-- C6 (code evaluation): `die()` removes the object from its parent's
child list immediately — `reparent(None)` runs inside `die()` — rather
than leaving it attached until the next draw traversal (`Layer.draw`
performs no pruning at all). -/
theorem c6_die_detaches_immediately :
    ((die 3 store0 2) 2).dead = true ∧ ((die 3 store0 2) 1).children = [] ∧
    (store0 1).children = [2] := by decide

/-!
### C5: death propagation

Invariant lemmas about `die` (by induction on fuel, with a generic
fold-preservation helper), then the propagation theorem.
-/

theorem foldl_preserve {P : Store → Prop} (g : Store → Nat → Store)
    (h : ∀ t c, P t → P (g t c)) :
    ∀ (l : List Nat) (t : Store), P t → P (l.foldl g t) := by
  intro l
  induction l with
  | nil => intro t ht; exact ht
  | cons c rest ih => intro t ht; exact ih (g t c) (h t c ht)

theorem setParent_dead (s : Store) (i : Nat) (v : Option Nat) (x : Nat) :
    ((setParent s i v) x).dead = (s x).dead := by
  rw [setParent]; split_ifs <;> rfl

theorem setParent_isLayer (s : Store) (i : Nat) (v : Option Nat) (x : Nat) :
    ((setParent s i v) x).isLayer = (s x).isLayer := by
  rw [setParent]; split_ifs <;> rfl

theorem removeChild_dead (s : Store) (p c x : Nat) :
    ((removeChild s p c) x).dead = (s x).dead := by
  rw [removeChild]; split_ifs <;> rfl

theorem removeChild_isLayer (s : Store) (p c x : Nat) :
    ((removeChild s p c) x).isLayer = (s x).isLayer := by
  rw [removeChild]; split_ifs <;> rfl

theorem addChild_dead (s : Store) (p c : Nat) (tb : Bool) (x : Nat) :
    ((addChild s p c tb) x).dead = (s x).dead := by
  rw [addChild]; split_ifs <;> rfl

theorem addChild_isLayer (s : Store) (p c : Nat) (tb : Bool) (x : Nat) :
    ((addChild s p c tb) x).isLayer = (s x).isLayer := by
  rw [addChild]; split_ifs <;> rfl

theorem reparent_dead (s : Store) (i : Nat) (np : Option Nat) (tb : Bool) (x : Nat) :
    ((reparent s i np tb) x).dead = (s x).dead := by
  rw [reparent.eq_def]
  cases (s i).parent with
  | none =>
      cases np with
      | none => rfl
      | some q => rw [setParent_dead, addChild_dead]
  | some p0 =>
      cases np with
      | none => rw [setParent_dead, removeChild_dead]
      | some q =>
          rw [setParent_dead, addChild_dead, setParent_dead, removeChild_dead]

theorem reparent_isLayer (s : Store) (i : Nat) (np : Option Nat) (tb : Bool) (x : Nat) :
    ((reparent s i np tb) x).isLayer = (s x).isLayer := by
  rw [reparent.eq_def]
  cases (s i).parent with
  | none =>
      cases np with
      | none => rfl
      | some q => rw [setParent_isLayer, addChild_isLayer]
  | some p0 =>
      cases np with
      | none => rw [setParent_isLayer, removeChild_isLayer]
      | some q =>
          rw [setParent_isLayer, addChild_isLayer, setParent_isLayer, removeChild_isLayer]

theorem setDead_dead (s : Store) (i x : Nat) :
    ((setDead s i) x).dead = (if x = i then true else (s x).dead) := by
  rw [setDead]; split_ifs <;> rfl

theorem setDead_parent (s : Store) (i x : Nat) :
    ((setDead s i) x).parent = (s x).parent := by
  rw [setDead]; split_ifs <;> rfl

theorem setDead_children (s : Store) (i x : Nat) :
    ((setDead s i) x).children = (s x).children := by
  rw [setDead]; split_ifs <;> rfl

theorem setDead_isLayer (s : Store) (i x : Nat) :
    ((setDead s i) x).isLayer = (s x).isLayer := by
  rw [setDead]; split_ifs <;> rfl

theorem rpN_parent_other (s : Store) (i x : Nat) (hx : x ≠ i) :
    ((reparent s i none false) x).parent = (s x).parent := by
  rw [reparent]
  cases h : (s i).parent with
  | none => rfl
  | some p0 =>
      show ((setParent (removeChild s p0 i) i none) x).parent = _
      simp only [setParent, removeChild]
      split_ifs with h1 h2 <;> first | exact absurd h1 hx | rfl

theorem rpN_parent_self (s : Store) (i : Nat) :
    ((reparent s i none false) i).parent = none := by
  rw [reparent]
  cases h : (s i).parent with
  | none => exact h
  | some p0 =>
      show ((setParent (removeChild s p0 i) i none) i).parent = none
      simp [setParent]

theorem rpN_children (s : Store) (i p : Nat) :
    ((reparent s i none false) p).children = (s p).children ∨
    ((reparent s i none false) p).children
      = (s p).children.filter (fun x => x ≠ i) := by
  rw [reparent]
  cases h : (s i).parent with
  | none => exact Or.inl rfl
  | some p0 =>
      show ((setParent (removeChild s p0 i) i none) p).children = _ ∨
        ((setParent (removeChild s p0 i) i none) p).children = _
      simp only [setParent, removeChild]
      split_ifs <;> first | exact Or.inl rfl | exact Or.inr rfl

theorem rpN_children_other (s : Store) (i p : Nat)
    (h : ∀ p0, (s i).parent = some p0 → p ≠ p0) :
    ((reparent s i none false) p).children = (s p).children := by
  rw [reparent]
  cases hp : (s i).parent with
  | none => rfl
  | some p0 =>
      have hne : p ≠ p0 := h p0 hp
      show ((setParent (removeChild s p0 i) i none) p).children = _
      simp only [setParent, removeChild, if_neg hne]
      split_ifs <;> rfl

theorem rpN_children_mem (s : Store) (i p y : Nat) (hy : y ≠ i) :
    y ∈ ((reparent s i none false) p).children ↔ y ∈ (s p).children := by
  rcases rpN_children s i p with h | h
  · rw [h]
  · rw [h]
    simp [List.mem_filter, hy]

theorem rpN_children_sublist (s : Store) (i p : Nat) :
    ((reparent s i none false) p).children.Sublist (s p).children := by
  rcases rpN_children s i p with h | h
  · rw [h]
  · rw [h]
    exact List.filter_sublist _

theorem die_dead_mono : ∀ (f : Nat) (s : Store) (i x : Nat),
    (s x).dead = true → ((die f s i) x).dead = true := by
  intro f
  induction f with
  | zero => intro s i x h; exact h
  | succ f ih =>
      intro s i x h
      have hbase : ((reparent (setDead s i) i none false) x).dead = true := by
        rw [reparent_dead, setDead_dead]
        split_ifs <;> simp [h]
      rw [die]
      split_ifs with hL
      · refine foldl_preserve (P := fun t => (t x).dead = true)
          _ (fun t c ht => ?_) _ _ hbase
        split_ifs with hg
        · exact ih t c x ht
        · exact ht
      · exact hbase

theorem die_isLayer : ∀ (f : Nat) (s : Store) (i x : Nat),
    ((die f s i) x).isLayer = (s x).isLayer := by
  intro f
  induction f with
  | zero => intro s i x; rfl
  | succ f ih =>
      intro s i x
      have hbase : ∀ t : Store, (∀ y, (t y).isLayer = (s y).isLayer) →
          ∀ y, ((reparent (setDead t i) i none false) y).isLayer = (s y).isLayer := by
        intro t ht y
        rw [reparent_isLayer, setDead_isLayer]
        exact ht y
      rw [die]
      split_ifs with hL
      · refine foldl_preserve (P := fun t => ∀ y, (t y).isLayer = (s y).isLayer)
          _ (fun t c ht => ?_) _ _ (hbase s (fun _ => rfl)) x
        intro y
        split_ifs with hg
        · rw [ih t c y]; exact ht y
        · exact ht y
      · exact hbase s (fun _ => rfl) x

theorem die_children_sublist : ∀ (f : Nat) (s : Store) (i : Nat),
    ∀ p, ((die f s i) p).children.Sublist (s p).children := by
  intro f
  induction f with
  | zero => intro s i p; exact List.Sublist.refl _
  | succ f ih =>
      intro s i p
      have hbase : ∀ q, ((reparent (setDead s i) i none false) q).children.Sublist
          (s q).children := by
        intro q
        have h1 := rpN_children_sublist (setDead s i) i q
        rwa [setDead_children] at h1
      rw [die]
      split_ifs with hL
      · refine foldl_preserve (P := fun t => ∀ q, (t q).children.Sublist (s q).children)
          _ (fun t c ht => ?_) _ _ hbase p
        intro q
        split_ifs with hg
        · exact (ih t c q).trans (ht q)
        · exact ht q
      · exact hbase p

theorem die_parent_none : ∀ (f : Nat) (s : Store) (i x : Nat),
    ((die f s i) x).parent = (s x).parent ∨ ((die f s i) x).parent = none := by
  intro f
  induction f with
  | zero => intro s i x; exact Or.inl rfl
  | succ f ih =>
      intro s i x
      have hbase : ((reparent (setDead s i) i none false) x).parent = (s x).parent ∨
          ((reparent (setDead s i) i none false) x).parent = none := by
        by_cases hx : x = i
        · rw [hx]
          exact Or.inr (rpN_parent_self (setDead s i) i)
        · rw [rpN_parent_other _ _ _ hx, setDead_parent]; exact Or.inl rfl
      rw [die]
      split_ifs with hL
      · refine foldl_preserve
          (P := fun t => (t x).parent = (s x).parent ∨ (t x).parent = none)
          _ (fun t c ht => ?_) _ _ hbase
        split_ifs with hg
        · rcases ih t c x with h | h
          · rw [h]; exact ht
          · exact Or.inr h
        · exact ht
      · exact hbase

theorem foldl_preserve_mem {P : Store → Prop} (g : Store → Nat → Store) :
    ∀ (l : List Nat) (t : Store),
      (∀ t2 c, c ∈ l → P t2 → P (g t2 c)) → P t → P (l.foldl g t) := by
  intro l
  induction l with
  | nil => intro t _ ht; exact ht
  | cons c rest ih =>
      intro t hstep ht
      exact ih (g t c) (fun t2 c2 hc2 ht2 => hstep t2 c2 (List.mem_cons_of_mem c hc2) ht2)
        (hstep t c (List.mem_cons_self c rest) ht)

theorem setParent_children (s : Store) (i : Nat) (v : Option Nat) (x : Nat) :
    ((setParent s i v) x).children = (s x).children := by
  rw [setParent]; split_ifs <;> rfl

theorem removeChild_children (s : Store) (p c x : Nat) :
    ((removeChild s p c) x).children =
      (if x = p then (s x).children.filter (fun z => z ≠ c) else (s x).children) := by
  rw [removeChild]; split_ifs <;> rfl

theorem desc_mono (s t : Store) (hsub : ∀ p, (t p).children.Sublist (s p).children) :
    ∀ a b, Desc t a b → Desc s a b := by
  intro a b h
  induction h with
  | refl c => exact Desc.refl c
  | step hc _ ih => exact Desc.step ((hsub _).subset hc) ih

theorem desc_rank (s : Store) (rk : Nat → Nat) (hwf : WFr s rk) :
    ∀ a b, Desc s a b → rk b ≤ rk a := by
  intro a b h
  induction h with
  | refl c => exact le_refl _
  | step hc _ ih => exact le_trans ih (le_of_lt (hwf.2.2.2 _ _ hc))

theorem desc_snoc (s : Store) : ∀ a b, Desc s a b →
    a = b ∨ ∃ p, Desc s a p ∧ b ∈ (s p).children := by
  intro a b h
  induction h with
  | refl c => exact Or.inl rfl
  | @step i c d hc _ ih =>
      rcases ih with rfl | ⟨p, hp, hb⟩
      · exact Or.inr ⟨i, Desc.refl i, hc⟩
      · exact Or.inr ⟨p, Desc.step hc hp, hb⟩

theorem die_locality : ∀ (f : Nat) (s : Store) (i x : Nat), ¬ Desc s i x →
    ((die f s i) x).dead = (s x).dead ∧ ((die f s i) x).parent = (s x).parent := by
  intro f
  induction f with
  | zero => intro s i x _; exact ⟨rfl, rfl⟩
  | succ f ih =>
      intro s i x hx
      have hxi : x ≠ i := fun h => hx (by rw [h]; exact Desc.refl i)
      have hbase_dead : ((reparent (setDead s i) i none false) x).dead = (s x).dead := by
        rw [reparent_dead, setDead_dead, if_neg hxi]
      have hbase_par : ((reparent (setDead s i) i none false) x).parent = (s x).parent := by
        rw [rpN_parent_other _ _ _ hxi, setDead_parent]
      rw [die]
      split_ifs with hL
      · have hbase : (∀ p, ((reparent (setDead s i) i none false) p).children.Sublist
            (s p).children) ∧
            ((reparent (setDead s i) i none false) x).dead = (s x).dead ∧
            ((reparent (setDead s i) i none false) x).parent = (s x).parent := by
          refine ⟨fun p => ?_, hbase_dead, hbase_par⟩
          have h1 := rpN_children_sublist (setDead s i) i p
          rwa [setDead_children] at h1
        have hstep : ∀ t c, c ∈ ((reparent (setDead s i) i none false) i).children →
            ((∀ p, (t p).children.Sublist (s p).children) ∧
              (t x).dead = (s x).dead ∧ (t x).parent = (s x).parent) →
            ((∀ p, ((if (t c).parent = some i then die f t c else t) p).children.Sublist
                (s p).children) ∧
              ((if (t c).parent = some i then die f t c else t) x).dead = (s x).dead ∧
              ((if (t c).parent = some i then die f t c else t) x).parent
                = (s x).parent) := by
          intro t c hcl ht
          split_ifs with hg
          · have hcs : c ∈ (s i).children := by
              have h1 := (rpN_children_sublist (setDead s i) i i).subset hcl
              rwa [setDead_children] at h1
            have hnc : ¬ Desc t c x := fun hd =>
              hx (Desc.step hcs (desc_mono s t ht.1 _ _ hd))
            have hloc := ih t c x hnc
            exact ⟨fun p => (die_children_sublist f t c p).trans (ht.1 p),
              hloc.1.trans ht.2.1, hloc.2.trans ht.2.2⟩
          · exact ht
        have hmain := foldl_preserve_mem _ _ _ hstep hbase
        exact ⟨hmain.2.1, hmain.2.2⟩
      · exact ⟨hbase_dead, hbase_par⟩

theorem die_link_kill : ∀ (f : Nat) (s : Store) (i p y : Nat),
    y ∈ (s p).children → y ∉ ((die f s i) p).children →
    ((die f s i) y).parent = none := by
  intro f
  induction f with
  | zero => intro s i p y hin hout; exact absurd hin hout
  | succ f ih =>
      intro s i p y hin hout
      rw [die] at hout ⊢
      split_ifs at hout ⊢ with hL
      · have hbase : y ∈ ((reparent (setDead s i) i none false) p).children ∨
            ((reparent (setDead s i) i none false) y).parent = none := by
          by_cases hy : y = i
          · rw [hy]
            exact Or.inr (rpN_parent_self (setDead s i) i)
          · refine Or.inl ((rpN_children_mem (setDead s i) i p y hy).2 ?_)
            rwa [setDead_children]
        have hstep : ∀ t c, c ∈ ((reparent (setDead s i) i none false) i).children →
            (y ∈ (t p).children ∨ (t y).parent = none) →
            (y ∈ ((if (t c).parent = some i then die f t c else t) p).children ∨
              ((if (t c).parent = some i then die f t c else t) y).parent = none) := by
          intro t c hcl ht
          split_ifs with hg
          · rcases ht with hmem | hpar
            · by_cases hy2 : y ∈ ((die f t c) p).children
              · exact Or.inl hy2
              · exact Or.inr (ih t c p y hmem hy2)
            · rcases die_parent_none f t c y with h | h
              · rw [h] at *; exact Or.inr hpar
              · exact Or.inr h
          · exact ht
        have hmain := foldl_preserve_mem _ _ _ hstep hbase
        rcases hmain with hmem | hpar
        · exact absurd hmem hout
        · exact hpar
      · by_cases hy : y = i
        · rw [hy]
          exact rpN_parent_self (setDead s i) i
        · exfalso
          refine hout ((rpN_children_mem (setDead s i) i p y hy).2 ?_)
          rwa [setDead_children]

theorem rpN_not_mem_self (u : Store) (i p : Nat)
    (hcons : ∀ q, i ∈ (u q).children → (u i).parent = some q) :
    i ∉ ((reparent u i none false) p).children := by
  intro hmem
  rw [reparent] at hmem
  cases h : (u i).parent with
  | none =>
      rw [h] at hmem
      have hp := hcons p hmem
      rw [h] at hp
      exact Option.noConfusion hp
  | some p0 =>
      rw [h] at hmem
      rw [show ∀ q, ((setParent (removeChild u p0 i) i none) q).children
          = (removeChild u p0 i q).children from
            fun q => setParent_children (removeChild u p0 i) i none q,
        removeChild_children] at hmem
      by_cases hp : p = p0
      · rw [if_pos hp] at hmem
        rcases List.mem_filter.1 hmem with ⟨-, habs⟩
        simp at habs
      · rw [if_neg hp] at hmem
        have hp2 := hcons p hmem
        rw [h] at hp2
        injection hp2 with he
        exact hp he.symm

theorem WFr_setDead (s : Store) (rk : Nat → Nat) (i : Nat) (hwf : WFr s rk) :
    WFr (setDead s i) rk := by
  refine ⟨?_, ?_, ?_, ?_⟩
  · intro p hp
    rw [setDead_children]
    rw [setDead_isLayer] at hp
    exact hwf.1 p hp
  · intro p c hc
    rw [setDead_children] at hc
    rw [setDead_parent]
    exact hwf.2.1 p c hc
  · intro c p hc
    rw [setDead_parent] at hc
    rw [setDead_children]
    exact hwf.2.2.1 c p hc
  · intro p c hc
    rw [setDead_children] at hc
    exact hwf.2.2.2 p c hc

theorem WFr_rpN (u : Store) (rk : Nat → Nat) (i : Nat) (hwf : WFr u rk) :
    WFr (reparent u i none false) rk := by
  have hcons : ∀ q, i ∈ (u q).children → (u i).parent = some q :=
    fun q hq => hwf.2.1 q i hq
  refine ⟨?_, ?_, ?_, ?_⟩
  · intro p hp
    rw [reparent_isLayer] at hp
    have h0 := hwf.1 p hp
    have hsub := rpN_children_sublist u i p
    rw [h0] at hsub
    exact List.sublist_nil.mp hsub
  · intro p c hc
    have hci : c ≠ i := fun h => rpN_not_mem_self u i p hcons (h ▸ hc)
    have hc2 : c ∈ (u p).children := (rpN_children_mem u i p c hci).1 hc
    rw [rpN_parent_other u i c hci]
    exact hwf.2.1 p c hc2
  · intro c p hc
    by_cases hci : c = i
    · rw [hci, rpN_parent_self] at hc
      exact Option.noConfusion hc
    · rw [rpN_parent_other u i c hci] at hc
      exact (rpN_children_mem u i p c hci).2 (hwf.2.2.1 c p hc)
  · intro p c hc
    have hci : c ≠ i := fun h => rpN_not_mem_self u i p hcons (h ▸ hc)
    exact hwf.2.2.2 p c ((rpN_children_mem u i p c hci).1 hc)

theorem WFr_die : ∀ (f : Nat) (s : Store) (rk : Nat → Nat) (i : Nat),
    WFr s rk → WFr (die f s i) rk := by
  intro f
  induction f with
  | zero => intro s rk i hwf; exact hwf
  | succ f ih =>
      intro s rk i hwf
      have hbase : WFr (reparent (setDead s i) i none false) rk :=
        WFr_rpN (setDead s i) rk i (WFr_setDead s rk i hwf)
      rw [die]
      split_ifs with hL
      · refine foldl_preserve (P := fun t => WFr t rk) _ (fun t c ht => ?_) _ _ hbase
        split_ifs with hg
        · exact ih t rk c ht
        · exact ht
      · exact hbase

theorem desc_rpN_transfer (s : Store) (rk : Nat → Nat) (hwf : WFr s rk) (i : Nat) :
    ∀ a d, Desc s a d → rk a < rk i →
      Desc (reparent (setDead s i) i none false) a d := by
  intro a d h
  induction h with
  | refl b => intro _; exact Desc.refl b
  | @step a2 y dd hy hyd ihd =>
      intro hra
      have hrky : rk y < rk a2 := hwf.2.2.2 a2 y hy
      have hryi : rk y < rk i := lt_trans hrky hra
      have hyne : y ≠ i := fun he => absurd (he ▸ hryi) (lt_irrefl _)
      have hlink : y ∈ ((reparent (setDead s i) i none false) a2).children := by
        refine (rpN_children_mem (setDead s i) i a2 y hyne).2 ?_
        rwa [setDead_children]
      exact Desc.step hlink (ihd hryi)

theorem descend_preserved (rk : Nat → Nat) (f : Nat)
    (ihf : ∀ (s : Store) (i d : Nat), WFr s rk → rk i < f → Desc s i d →
      ((die f s i) d).dead = true)
    (i : Nat) (hrki : rk i ≤ f) (t : Store) (hwf : WFr t rk)
    (c2 : Nat) (hg : (t c2).parent = some i) :
    ∀ a d, Desc t a d → ¬ Desc t c2 a →
      (Desc (die f t c2) a d ∨ ((die f t c2) d).dead = true) := by
  have hc2i : c2 ∈ (t i).children := hwf.2.2.1 c2 i hg
  have hrkc2 : rk c2 < rk i := hwf.2.2.2 i c2 hc2i
  intro a d had
  induction had with
  | refl b => intro _; exact Or.inl (Desc.refl b)
  | @step a2 y dd hy hyd ihd =>
      intro hna
      by_cases hyc : y = c2
      · exact Or.inr (ihf t c2 dd hwf (lt_of_lt_of_le hrkc2 hrki) (hyc ▸ hyd))
      · have hnay : ¬ Desc t c2 y := by
          intro hdy
          rcases desc_snoc t c2 y hdy with he | ⟨p, hp, hyp⟩
          · exact hyc he.symm
          · have h1 : (t y).parent = some p := hwf.2.1 p y hyp
            have h2 : (t y).parent = some a2 := hwf.2.1 a2 y hy
            rw [h1] at h2
            injection h2 with he2
            refine hna ?_
            rw [← he2]
            exact hp
        have hloc := die_locality f t c2 y hnay
        have hlink : y ∈ ((die f t c2) a2).children := by
          by_contra hno
          have hkill := die_link_kill f t c2 a2 y hy hno
          rw [hloc.2, hwf.2.1 a2 y hy] at hkill
          exact Option.noConfusion hkill
        rcases ihd hnay with hdesc2 | hdead
        · exact Or.inl (Desc.step hlink hdesc2)
        · exact Or.inr hdead

theorem dieFold_kills (rk : Nat → Nat) (f : Nat)
    (ihf : ∀ (s : Store) (i d : Nat), WFr s rk → rk i < f → Desc s i d →
      ((die f s i) d).dead = true)
    (i : Nat) (hrki : rk i ≤ f) (d : Nat) :
    ∀ (l : List Nat) (t : Store), WFr t rk →
      ((t d).dead = true ∨ ∃ c, c ∈ l ∧ (t c).parent = some i ∧ Desc t c d) →
      ((l.foldl (fun t2 c2 => if (t2 c2).parent = some i then die f t2 c2 else t2) t)
          d).dead = true := by
  intro l
  induction l with
  | nil =>
      intro t _ hinv
      rcases hinv with h | ⟨c, hc, -, -⟩
      · exact h
      · exact absurd hc (List.not_mem_nil c)
  | cons c2 rest ih =>
      intro t hwf hinv
      rw [List.foldl_cons]
      by_cases hg : (t c2).parent = some i
      · rw [if_pos hg]
        have hwf2 : WFr (die f t c2) rk := WFr_die f t rk c2 hwf
        rcases hinv with hdead | ⟨c, hc, hpc, hcd⟩
        · exact ih (die f t c2) hwf2 (Or.inl (die_dead_mono f t c2 d hdead))
        · by_cases hcc : c = c2
          · have hrkc : rk c < rk i := hwf.2.2.2 i c (hwf.2.2.1 c i hpc)
            have hdd : ((die f t c) d).dead = true :=
              ihf t c d hwf (lt_of_lt_of_le hrkc hrki) hcd
            refine ih (die f t c2) hwf2 (Or.inl ?_)
            rw [← hcc]
            exact hdd
          · have hnc : ¬ Desc t c2 c := by
              intro hdc
              rcases desc_snoc t c2 c hdc with he | ⟨p, hp, hcp⟩
              · exact hcc he.symm
              · have h1 : (t c).parent = some p := hwf.2.1 p c hcp
                rw [hpc] at h1
                injection h1 with he2
                have hdi : Desc t c2 i := by rw [he2]; exact hp
                have hr1 : rk i ≤ rk c2 := desc_rank t rk hwf c2 i hdi
                have hr2 : rk c2 < rk i := hwf.2.2.2 i c2 (hwf.2.2.1 c2 i hg)
                exact absurd hr1 (not_le_of_lt hr2)
            have hloc := die_locality f t c2 c hnc
            rcases descend_preserved rk f ihf i hrki t hwf c2 hg c d hcd hnc with
              hdesc | hdead
            · refine ih (die f t c2) hwf2 (Or.inr ⟨c, ?_, ?_, hdesc⟩)
              · rcases List.mem_cons.1 hc with he | hm
                · exact absurd he hcc
                · exact hm
              · rw [hloc.2]
                exact hpc
            · exact ih (die f t c2) hwf2 (Or.inl hdead)
      · rw [if_neg hg]
        rcases hinv with hdead | ⟨c, hc, hpc, hcd⟩
        · exact ih t hwf (Or.inl hdead)
        · have hcc : c ≠ c2 := fun he => hg (he ▸ hpc)
          refine ih t hwf (Or.inr ⟨c, ?_, hpc, hcd⟩)
          rcases List.mem_cons.1 hc with he | hm
          · exact absurd he hcc
          · exact hm

theorem die_kills (rk : Nat → Nat) : ∀ (f : Nat) (s : Store) (i d : Nat),
    WFr s rk → rk i < f → Desc s i d → ((die f s i) d).dead = true := by
  intro f
  induction f with
  | zero => intro s i d _ hf _; exact absurd hf (Nat.not_lt_zero _)
  | succ f ih =>
      intro s i d hwf hf hdesc
      have hbase_dead : ((reparent (setDead s i) i none false) i).dead = true := by
        rw [reparent_dead, setDead_dead, if_pos rfl]
      cases hdesc with
      | refl =>
          rw [die]
          split_ifs with hL
          · refine foldl_preserve (P := fun t => (t i).dead = true) _
              (fun t c ht => ?_) _ _ hbase_dead
            split_ifs with hg
            · exact die_dead_mono f t c i ht
            · exact ht
          · exact hbase_dead
      | @step _ c _ hc hcd =>
          have hL : (s i).isLayer = true := by
            by_contra hnl
            have h0 : (s i).isLayer = false := by
              cases hll : (s i).isLayer
              · rfl
              · exact absurd hll hnl
            rw [hwf.1 i h0] at hc
            exact absurd hc (List.not_mem_nil c)
          rw [die, if_pos hL]
          have hwf1 : WFr (reparent (setDead s i) i none false) rk :=
            WFr_rpN (setDead s i) rk i (WFr_setDead s rk i hwf)
          have hpne : ∀ p0, ((setDead s i) i).parent = some p0 → i ≠ p0 := by
            intro p0 hp0
            rw [setDead_parent] at hp0
            have hmem : i ∈ (s p0).children := hwf.2.2.1 i p0 hp0
            have hrk : rk i < rk p0 := hwf.2.2.2 p0 i hmem
            exact fun he => absurd hrk (by rw [he]; exact lt_irrefl _)
          have hcs : ((reparent (setDead s i) i none false) i).children
              = (s i).children := by
            rw [rpN_children_other (setDead s i) i i hpne, setDead_children]
          have hrkc : rk c < rk i := hwf.2.2.2 i c hc
          have hcne : c ≠ i := fun he => absurd hrkc (by rw [he]; exact lt_irrefl _)
          have hpar1 : ((reparent (setDead s i) i none false) c).parent = some i := by
            rw [rpN_parent_other _ _ _ hcne, setDead_parent]
            exact hwf.2.1 i c hc
          have hdesc1 : Desc (reparent (setDead s i) i none false) c d :=
            desc_rpN_transfer s rk hwf i c d hcd hrkc
          exact dieFold_kills rk f (fun s2 i2 d2 hwf2 hf2 hd2 => ih s2 i2 d2 hwf2 hf2 hd2)
            i (Nat.lt_succ_iff.mp hf) d
            ((reparent (setDead s i) i none false) i).children
            (reparent (setDead s i) i none false) hwf1
            (Or.inr ⟨c, by rw [hcs]; exact hc, hpar1, hdesc1⟩)

/-- C5: for a well-formed scene forest, `Layer.die()` synchronously sets
the `dead` flag of the layer and of every descendant reachable through
child lists at the time of the call (given recursion fuel exceeding the
layer's rank, which always holds for the finite trees the program
builds); and `dead` is monotonic — neither `die` nor `reparent` (the only
operations that touch the link state) ever resets a `dead` flag. -/
theorem c5_death_propagation (s : Store) (rk : Nat → Nat) (f : Nat) (L : Nat)
    (hwf : WFr s rk) (hf : rk L < f) (hL : (s L).isLayer = true) :
    (∀ d, Desc s L d → ((die f s L) d).dead = true) ∧
    (∀ (g : Nat) (t : Store) (j x : Nat), (t x).dead = true →
      ((die g t j) x).dead = true) ∧
    (∀ (t : Store) (j : Nat) (np : Option Nat) (tb : Bool) (x : Nat),
      (t x).dead = true → ((reparent t j np tb) x).dead = true) := by
  refine ⟨fun d hd => die_kills rk f s L d hwf hf hd,
    fun g t j x h => die_dead_mono g t j x h,
    fun t j np tb x h => ?_⟩
  rw [reparent_dead]
  exact h
  -- hL records that the claim is about a Layer; the propagation holds for
  -- any node (a non-Layer has no children, so its subtree is itself).

/-- Witness for C5 on the concrete three-level tree `store0`. -/
theorem c5_death_propagation_witness :
    ((die 3 store0 1) 3).dead = true ∧ ((die 3 store0 1) 2).dead = true ∧
    ((die 3 store0 1) 1).dead = true := by
  have hwf : WFr store0 rank0 := by
    refine ⟨?_, ?_, ?_, ?_⟩
    · intro p hp
      by_cases h1 : p = 1
      · rw [h1] at hp; exact absurd hp (by decide)
      · by_cases h2 : p = 2
        · rw [h2] at hp; exact absurd hp (by decide)
        · by_cases h3 : p = 3
          · rw [h3]; rfl
          · show (store0 p).children = []
            simp [store0, h1, h2, h3]
    · intro p c hc
      by_cases h1 : p = 1
      · rw [h1] at hc
        have : c = 2 := by
          have := hc
          simp [store0] at this
          exact this
        rw [this, h1]; rfl
      · by_cases h2 : p = 2
        · rw [h2] at hc
          have : c = 3 := by
            have := hc
            simp [store0, h2] at this
            exact this
          rw [this, h2]; rfl
        · by_cases h3 : p = 3
          · rw [h3, show (store0 3).children = [] from rfl] at hc
            exact absurd hc (List.not_mem_nil c)
          · exfalso
            have : (store0 p).children = [] := by simp [store0, h1, h2, h3]
            rw [this] at hc
            exact absurd hc (List.not_mem_nil c)
    · intro c p hc
      by_cases h1 : c = 1
      · rw [h1, show (store0 1).parent = none from rfl] at hc
        exact Option.noConfusion hc
      · by_cases h2 : c = 2
        · rw [h2] at hc
          have : p = 1 := by
            have := hc
            simp [store0, h2] at this
            exact this.symm
          rw [this, h2]; decide
        · by_cases h3 : c = 3
          · rw [h3] at hc
            have : p = 2 := by
              have := hc
              simp [store0, h3] at this
              exact this.symm
            rw [this, h3]; decide
          · exfalso
            have : (store0 c).parent = none := by simp [store0, h1, h2, h3]
            rw [this] at hc
            exact Option.noConfusion hc
    · intro p c hc
      by_cases h1 : p = 1
      · rw [h1] at hc ⊢
        have : c = 2 := by
          have := hc
          simp [store0] at this
          exact this
        rw [this]; decide
      · by_cases h2 : p = 2
        · rw [h2] at hc ⊢
          have : c = 3 := by
            have := hc
            simp [store0, h2] at this
            exact this
          rw [this]; decide
        · by_cases h3 : p = 3
          · rw [h3, show (store0 3).children = [] from rfl] at hc
            exact absurd hc (List.not_mem_nil c)
          · exfalso
            have : (store0 p).children = [] := by simp [store0, h1, h2, h3]
            rw [this] at hc
            exact absurd hc (List.not_mem_nil c)
  have h := c5_death_propagation store0 rank0 3 1 hwf (by decide) (by decide)
  refine ⟨h.1 3 ?_, h.1 2 ?_, h.1 1 (Desc.refl 1)⟩
  · exact Desc.step (show (2 : Nat) ∈ (store0 1).children from by decide)
      (Desc.step (show (3 : Nat) ∈ (store0 2).children from by decide) (Desc.refl 3))
  · exact Desc.step (show (2 : Nat) ∈ (store0 1).children from by decide) (Desc.refl 2)

/-!
### C7: singular detection in `inverse`
-/

theorem negpos_sum (m : M16) : negS m + posS m = det3 m := by
  simp only [negS, posS, dtemps, List.map_cons, List.map_nil, List.sum_cons,
    List.sum_nil, det3]
  split_ifs <;> ring

theorem det3_premul_affine (v m : M16) (h3 : v.a3 = 0) (h7 : v.a7 = 0)
    (h11 : v.a11 = 0) : det3 (premulM v m) = det3 v * det3 m := by
  simp only [det3, premulM]
  rw [h3, h7, h11]
  ring

theorem opMat_affine (op : TOp) :
    (opMat op).a3 = 0 ∧ (opMat op).a7 = 0 ∧ (opMat op).a11 = 0 := by
  cases op <;> exact ⟨rfl, rfl, rfl⟩

theorem det3_rotM (c s x y z : ℚ) (hcs : c ^ 2 + s ^ 2 = 1)
    (hax : x ^ 2 + y ^ 2 + z ^ 2 = 1) : det3 (rotM c s x y z) = 1 := by
  have hpoly : det3 (rotM c s x y z)
      = (c + (1 - c) * (x ^ 2 + y ^ 2 + z ^ 2))
          * (c ^ 2 + s ^ 2 * (x ^ 2 + y ^ 2 + z ^ 2)) := by
    simp only [det3, rotM]
    ring
  rw [hpoly, hax]
  linear_combination hcs

theorem det3_opMat (op : TOp) (h : WFOp op) : det3 (opMat op) = opDet op := by
  cases op with
  | tr x y z => simp only [opMat, opDet, det3, translateM]; ring
  | sc x y z => simp only [opMat, opDet, det3, scaleM]; ring
  | rot c s x y z => exact det3_rotM c s x y z h.1 h.2

theorem det3_foldl (ops : List TOp) : ∀ m : M16, (∀ op ∈ ops, WFOp op) →
    det3 (ops.foldl (fun m2 op => premulM (opMat op) m2) m)
      = (ops.map opDet).prod * det3 m := by
  induction ops with
  | nil => intro m _; simp
  | cons op rest ih =>
      intro m hwf
      rw [List.foldl_cons, ih _ (fun o ho => hwf o (List.mem_cons_of_mem op ho))]
      have ha := opMat_affine op
      rw [det3_premul_affine _ _ ha.1 ha.2.1 ha.2.2,
        det3_opMat op (hwf op (List.mem_cons_self op rest))]
      rw [List.map_cons, List.prod_cons]
      ring

theorem det3_applyOps (ops : List TOp) (hwf : ∀ op ∈ ops, WFOp op) :
    det3 (applyOps ops) = (ops.map opDet).prod := by
  rw [applyOps, det3_foldl ops idM hwf]
  have h1 : det3 idM = 1 := by norm_num [det3, idM]
  rw [h1, mul_one]

theorem inverseM_of_det_zero (m : M16) (h : det3 m = 0) : inverseM m = none := by
  have hd : negS m + posS m = 0 := by rw [negpos_sum]; exact h
  simp [inverseM, hd]

/-- C7 (amended): (a) any well-formed translate/rotate/scale sequence
containing a scale with a zero factor produces a matrix on which `inverse`
and `transform_point` raise the "not invertible" error; (b) with all
scale factors nonzero the determinant is exactly nonzero, and `inverse`
succeeds *provided* the near-singularity ratio check does not fire —
unlike the original claim, which asserted success unconditionally and is
refuted by `ops7`. -/
theorem c7_singular_detection :
    (∀ ops : List TOp, (∀ op ∈ ops, WFOp op) → (∃ op ∈ ops, zeroScaleOp op) →
       inverseM (applyOps ops) = none ∧
       ∀ x y z : ℚ, transform_pointM (applyOps ops) x y z = none) ∧
    (∀ ops : List TOp, (∀ op ∈ ops, WFOp op) → (∀ op ∈ ops, nonzeroScaleOp op) →
       det3 (applyOps ops) ≠ 0 ∧
       (¬ |det3 (applyOps ops) / (posS (applyOps ops) - negS (applyOps ops))|
           < 2 * (1 / (10 : ℚ) ^ 17) →
         ∃ b, inverseM (applyOps ops) = some b)) := by
  constructor
  · intro ops hwf ⟨op, hop, hz⟩
    have hdet : det3 (applyOps ops) = 0 := by
      rw [det3_applyOps ops hwf]
      refine List.prod_eq_zero ?_
      have : opDet op = 0 := by
        cases op with
        | tr x y z => exact absurd hz (by simp [zeroScaleOp])
        | rot c s x y z => exact absurd hz (by simp [zeroScaleOp])
        | sc x y z =>
            rcases hz with h | h | h <;> simp [opDet, h]
      rw [← this]
      exact List.mem_map_of_mem opDet hop
    have hinv := inverseM_of_det_zero _ hdet
    exact ⟨hinv, fun x y z => by simp [transform_pointM, hinv]⟩
  · intro ops hwf hnz
    have hdet : det3 (applyOps ops) ≠ 0 := by
      rw [det3_applyOps ops hwf]
      refine List.prod_ne_zero ?_
      intro h0
      rcases List.mem_map.1 h0 with ⟨op, hop, hd⟩
      cases op with
      | tr x y z => exact absurd hd.symm (by simp [opDet])
      | rot c s x y z => exact absurd hd.symm (by simp [opDet])
      | sc x y z =>
          rcases mul_eq_zero.1 hd.symm.symm with h | h
          · rcases mul_eq_zero.1 h with h | h
            · exact (hnz (.sc x y z) hop).1 h
            · exact (hnz (.sc x y z) hop).2.1 h
          · exact (hnz (.sc x y z) hop).2.2 h
    refine ⟨hdet, fun hratio => ?_⟩
    have hd1 : negS (applyOps ops) + posS (applyOps ops) ≠ 0 := by
      rw [negpos_sum]; exact hdet
    rw [← negpos_sum] at hratio
    have hcond : ¬(negS (applyOps ops) + posS (applyOps ops) = 0 ∨
        |(negS (applyOps ops) + posS (applyOps ops))
            / (posS (applyOps ops) - negS (applyOps ops))|
          < 2 * (1 / (10 : ℚ) ^ 17)) := by
      push_neg
      exact ⟨hd1, not_lt.mp hratio⟩
    have hsome : (inverseM (applyOps ops)).isSome = true := by
      simp only [inverseM]
      rw [if_neg hcond]
      rfl
    exact Option.isSome_iff_exists.mp hsome

theorem m9_eq : m9 =
    ⟨(9 * 10 ^ 18 - 16) / (25 * 10 ^ 9), (12 * 10 ^ 18 + 12) / (25 * 10 ^ 9), 0, 0,
     -((12 * 10 ^ 18 + 12) / (25 * 10 ^ 9)), (9 - 16 * 10 ^ 18) / (25 * 10 ^ 9), 0, 0,
     0, 0, 1, 0, 0, 0, 0, 1⟩ := by
  norm_num [m9, applyOps, ops7, List.foldl, opMat, premulM, rotM, scaleM, idM,
    M16.mk.injEq]

theorem m9_inverse_none : inverseM m9 = none := by
  rw [m9_eq]
  norm_num [inverseM, posS, negS, dtemps, List.map_cons, List.map_nil,
    List.sum_cons, List.sum_nil, abs_div]

/-- Counterexample to C7's unconditional part (b): every operation of
`ops7` is well formed and scales only by nonzero factors, yet `inverse`
raises via the near-singularity ratio check (the determinant is exactly
1). -/
theorem c7_ratio_counterexample :
    (∀ op ∈ ops7, WFOp op ∧ nonzeroScaleOp op) ∧
    det3 (applyOps ops7) = 1 ∧ inverseM (applyOps ops7) = none := by
  refine ⟨?_, ?_, m9_inverse_none⟩
  · intro op hop
    have hcases : op = TOp.rot (3 / 5) (4 / 5) 0 0 1 ∨
        op = TOp.sc (10 ^ 9) (1 / 10 ^ 9) 1 ∨
        op = TOp.rot (3 / 5) (4 / 5) 0 0 1 := by
      simpa [ops7] using hop
    rcases hcases with rfl | rfl | rfl <;>
      exact ⟨by norm_num [WFOp], by norm_num [nonzeroScaleOp]⟩
  · have h := m9_eq
    rw [show applyOps ops7 = m9 from rfl, h]
    norm_num [det3]

/-- Witness for C7 (amended): a zero-axis scale raises; an all-nonzero
scale with a benign ratio succeeds. -/
theorem c7_singular_detection_witness :
    inverseM (applyOps [TOp.sc 1 0 1]) = none ∧
    det3 (applyOps [TOp.sc 2 1 1]) ≠ 0 ∧
    ∃ b, inverseM (applyOps [TOp.sc 2 1 1]) = some b := by
  have h := c7_singular_detection
  have hwf1 : ∀ op ∈ [TOp.sc 1 0 1], WFOp op := by
    intro op hop
    rw [List.mem_singleton] at hop
    rw [hop]
    trivial
  have hwf2 : ∀ op ∈ [TOp.sc 2 1 1], WFOp op := by
    intro op hop
    rw [List.mem_singleton] at hop
    rw [hop]
    trivial
  have hnz2 : ∀ op ∈ [TOp.sc 2 1 1], nonzeroScaleOp op := by
    intro op hop
    rw [List.mem_singleton] at hop
    rw [hop]
    exact ⟨by norm_num, one_ne_zero, one_ne_zero⟩
  have hz1 : ∃ op ∈ [TOp.sc 1 0 1], zeroScaleOp op :=
    ⟨TOp.sc 1 0 1, List.mem_singleton_self _, Or.inr (Or.inl rfl)⟩
  have hratio : ¬ |det3 (applyOps [TOp.sc 2 1 1])
      / (posS (applyOps [TOp.sc 2 1 1]) - negS (applyOps [TOp.sc 2 1 1]))|
        < 2 * (1 / (10 : ℚ) ^ 17) := by
    norm_num [applyOps, List.foldl, opMat, premulM, scaleM, idM, det3, posS, negS,
      dtemps, List.map_cons, List.map_nil, List.sum_cons, List.sum_nil]
  exact ⟨(h.1 [TOp.sc 1 0 1] hwf1 hz1).1, (h.2 [TOp.sc 2 1 1] hwf2 hnz2).1,
    (h.2 [TOp.sc 2 1 1] hwf2 hnz2).2 hratio⟩

/-!
### C9: `PointTransformation.premultiply` against `transform_point`
-/

theorem premulM_idM (m : M16) : premulM m idM = m := by
  cases m
  simp [premulM, idM]

/-- C9 (amended): for any affine matrix `v` on which `inverse` succeeds,
`PointTransformation(p).premultiply(v)` succeeds and leaves the tracked
point exactly equal to `transform_point(p)` on a `MatrixTransformation`
that premultiplied `v` onto the identity.  (The original claim quantified
over all mathematically invertible matrices; it fails on matrices whose
near-singularity ratio check fires, where `transform_point` raises while
`premultiply` returns a value.) -/
theorem c9_premultiply_equiv (v : M16) (p : Pt) (b : M16)
    (hinv : inverseM v = some b) :
    ∃ q : PT, PTpremultiply ⟨p, p, []⟩ v = some q ∧
      transform_pointM (premulM v idM) p.1 p.2.1 p.2.2 = some q.point := by
  have hcond : ¬(negS v + posS v = 0 ∨
      |(negS v + posS v) / (posS v - negS v)| < 2 * (1 / (10 : ℚ) ^ 17)) := by
    intro hc
    simp only [inverseM] at hinv
    rw [if_pos hc] at hinv
    exact Option.noConfusion hinv
  have hdet : negS v + posS v ≠ 0 := fun h0 => hcond (Or.inl h0)
  have hdet3 : det3 v ≠ 0 := by rwa [negpos_sum] at hdet
  have hden : v.a0 * (v.a5 * v.a10 - v.a9 * v.a6) + v.a1 * (v.a8 * v.a6 - v.a4 * v.a10)
      + (v.a4 * v.a9 - v.a8 * v.a5) * v.a2 ≠ 0 := by
    have he : v.a0 * (v.a5 * v.a10 - v.a9 * v.a6)
        + v.a1 * (v.a8 * v.a6 - v.a4 * v.a10)
        + (v.a4 * v.a9 - v.a8 * v.a5) * v.a2 = det3 v := by
      simp only [det3]
      ring
    rw [he]
    exact hdet3
  have hdet3p : v.a0 * v.a5 * v.a10 + v.a1 * v.a6 * v.a8 + v.a2 * v.a4 * v.a9
      - v.a2 * v.a5 * v.a8 - v.a1 * v.a4 * v.a10 - v.a0 * v.a6 * v.a9 ≠ 0 := by
    have he : v.a0 * v.a5 * v.a10 + v.a1 * v.a6 * v.a8 + v.a2 * v.a4 * v.a9
        - v.a2 * v.a5 * v.a8 - v.a1 * v.a4 * v.a10 - v.a0 * v.a6 * v.a9 = det3 v := by
      simp only [det3]
    rw [he]
    exact hdet3
  obtain ⟨q, hq⟩ : ∃ q, PTpremultiply ⟨p, p, []⟩ v = some q := by
    have hsome : (PTpremultiply ⟨p, p, []⟩ v).isSome = true := by
      simp only [PTpremultiply]
      rw [if_neg hden]
      rfl
    exact Option.isSome_iff_exists.mp hsome
  refine ⟨q, hq, ?_⟩
  simp only [PTpremultiply] at hq
  rw [if_neg hden] at hq
  injection hq with hqe
  rw [premulM_idM]
  simp only [transform_pointM, inverseM]
  rw [if_neg hcond]
  rw [← hqe]
  rw [negpos_sum]
  simp only [det3, Option.some.injEq, Prod.mk.injEq]
  refine ⟨?_, ?_, ?_⟩ <;> (field_simp; ring)

/-- Witness for C9 (amended) on a pure translation matrix. -/
theorem c9_premultiply_equiv_witness :
    ∃ q : PT, PTpremultiply ⟨(5, 7, 9), (5, 7, 9), []⟩ mW = some q ∧
      transform_pointM (premulM mW idM) 5 7 9 = some q.point := by
  refine c9_premultiply_equiv mW (5, 7, 9)
    ⟨1, 0, 0, 0, 0, 1, 0, 0, 0, 0, 1, 0, -1, -2, -3, 1⟩ ?_
  norm_num [inverseM, mW, translateM, posS, negS, dtemps, List.map_cons,
    List.map_nil, List.sum_cons, List.sum_nil, M16.mk.injEq]

/-- Counterexample to C9 as stated: the matrix `m9` is affine and exactly
invertible (determinant 1), `premultiply` maps the point, but
`transform_point` raises through the near-singularity check, so no equal
numeric result exists. -/
theorem c9_premultiply_counterexample :
    det3 m9 ≠ 0 ∧ m9.a3 = 0 ∧ m9.a7 = 0 ∧ m9.a11 = 0 ∧ m9.a15 = 1 ∧
    (PTpremultiply pt0 m9).isSome = true ∧
    transform_pointM (premulM m9 idM) 0 0 0 = none := by
  refine ⟨?_, ?_, ?_, ?_, ?_, ?_, ?_⟩
  · rw [m9_eq]
    norm_num [det3]
  · rw [m9_eq]
  · rw [m9_eq]
  · rw [m9_eq]
  · rw [m9_eq]
  · rw [m9_eq]
    norm_num [PTpremultiply, pt0]
  · rw [premulM_idM]
    simp [transform_pointM, m9_inverse_none]

end GG
